import Mathlib

/-!
Shallow embedding of the linear-cli command-line client (src/bin/linear.mjs and
the newer CLI variant), covering the blocking-graph resolver, the sort-order
engine, the layered config and alias store, the checklist fuzzy matcher, the
issue-list filters and sort, and the argument parser.  Every definition mirrors
the JavaScript source; theorems settle the spec claims C1-C10.
-/

namespace LinearCli

/-- A typed directed relation edge attached to a fetched issue, as returned by
the issues query (`relations { nodes { type relatedIssue { identifier state { type } } } }`). -/
structure Relation where
  type : String
  relatedId : String
  relatedStateType : String
  deriving DecidableEq, Repr

/-- A fetched issue node from the team issues query. -/
structure Issue where
  identifier : String
  stateType : String
  stateName : String
  priority : Nat
  sortOrder : ℚ
  assigneeId : Option String
  projectName : Option String
  milestoneName : Option String
  labels : List String
  relations : List Relation
  deriving DecidableEq, Repr

/-- JS `s.toLowerCase()` (ASCII range, as exercised by the CLI). -/
def strToLower (s : String) : String := ⟨s.data.map Char.toLower⟩

/-- JS `s.toUpperCase()` (ASCII range, as exercised by the CLI). -/
def strToUpper (s : String) : String := ⟨s.data.map Char.toUpper⟩

/-- JS `a.startsWith(b)` on char lists. -/
def charsStartsWith : List Char → List Char → Bool
  | _, [] => true
  | [], _ :: _ => false
  | c :: cs, d :: ds => c == d && charsStartsWith cs ds

/-- JS `s.includes(sub)` on char lists: substring containment. -/
def charsIncludes : List Char → List Char → Bool
  | [], sub => sub.isEmpty
  | c :: cs, sub => charsStartsWith (c :: cs) sub || charsIncludes cs sub

/-- JS `s.includes(sub)`: substring containment on strings. -/
def strIncludes (s sub : String) : Bool :=
  charsIncludes s.toList sub.toList

/-- The in-memory alias table `ALIASES` (a JS object mapping uppercase codes to names),
modelled as an association list whose first binding for a key is the visible one. -/
abbrev AliasTable := List (String × String)

/-- JS `ALIASES[code]` object lookup. -/
def aliasLookup (t : AliasTable) (code : String) : Option String :=
  (List.find? (fun p => p.1 == code) t).map (·.2)

/-- `resolveAlias(nameOrAlias)`: `if (!nameOrAlias) return nameOrAlias; return
ALIASES[nameOrAlias.toUpperCase()] || nameOrAlias;`. -/
def resolveAlias (t : AliasTable) (nameOrAlias : String) : String :=
  if nameOrAlias = "" then nameOrAlias
  else match aliasLookup t (strToUpper nameOrAlias) with
    | some v => if v = "" then nameOrAlias else v
    | none => nameOrAlias

/-- `PRIORITY_MAP`: name to ordinal table. -/
def PRIORITY_MAP : String → Option Nat
  | "urgent" => some 1
  | "high" => some 2
  | "medium" => some 3
  | "low" => some 4
  | "none" => some 0
  | _ => none

/-- `STATUS_TYPE_MAP`: user-friendly status names to Linear state types. -/
def STATUS_TYPE_MAP : String → Option String
  | "backlog" => some "backlog"
  | "todo" => some "unstarted"
  | "in-progress" => some "started"
  | "inprogress" => some "started"
  | "in_progress" => some "started"
  | "started" => some "started"
  | "done" => some "completed"
  | "completed" => some "completed"
  | "canceled" => some "canceled"
  | "cancelled" => some "canceled"
  | "triage" => some "triage"
  | _ => none

/-- `statusFilter.map(s => STATUS_TYPE_MAP[s.toLowerCase()] || s.toLowerCase())`. -/
def resolvedStatusTypes (statusFilter : List String) : List String :=
  statusFilter.map (fun s => (STATUS_TYPE_MAP (strToLower s)).getD (strToLower s))

/-- The filter options taken by `cmdIssues` that feed `applyFilters`. -/
structure FilterOpts where
  mineOnly : Bool
  viewerId : Option String
  labelFilters : List String
  projectFilter : Option String
  milestoneFilter : Option String
  priority : Option String
  aliases : AliasTable

/-- `applyFilters` from `cmdIssues`: chained filters for mine, labels, project,
milestone and priority, each applied only when its option was given. -/
def applyFilters (o : FilterOpts) (list : List Issue) : List Issue :=
  let f1 := if o.mineOnly then
      list.filter (fun i => i.assigneeId == o.viewerId)
    else list
  let f2 := if o.labelFilters.length > 0 then
      f1.filter (fun i => o.labelFilters.any (fun lf => i.labels.any (fun l => strToLower l == strToLower lf)))
    else f1
  let f3 := if o.projectFilter.getD "" = "" then f2 else
      f2.filter (fun i => match i.projectName with
        | some pn => strIncludes (strToLower pn) (strToLower (resolveAlias o.aliases (o.projectFilter.getD "")))
        | none => false)
  let f4 := if o.milestoneFilter.getD "" = "" then f3 else
      f3.filter (fun i => match i.milestoneName with
        | some mn => strIncludes (strToLower mn) (strToLower (resolveAlias o.aliases (o.milestoneFilter.getD "")))
        | none => false)
  if strToLower (o.priority.getD "") = "" then f4 else
    match PRIORITY_MAP (strToLower (o.priority.getD "")) with
    | some target => f4.filter (fun i => i.priority == target)
    | none => f4

/-- `filterByStatus` from `cmdIssues`: an issue passes when its state type or its
lowercased state name is among the resolved status types. -/
def filterByStatus (list : List Issue) (types : List String) : List Issue :=
  list.filter (fun i => types.contains i.stateType || types.contains (strToLower i.stateName))

/-- The `blocked` identifier set built by the `--unblocked` branch of `cmdIssues`:
every relation of type `blocks` anywhere in the fetched set contributes the
identifier of its related issue. -/
def blockedIds (issues : List Issue) : List String :=
  issues.flatMap (fun j => (j.relations.filter (fun r => r.type == "blocks")).map (fun r => r.relatedId))

/-- The `--unblocked` branch of `cmdIssues`: keep non-completed, non-canceled
issues whose identifier is not in the blocked set, then apply the status filter
(when given) and the common filters. -/
def cmdIssuesUnblocked (statusFilter : List String) (o : FilterOpts) (issues : List Issue) : List Issue :=
  let blocked := blockedIds issues
  let base := issues.filter (fun i =>
    !(["completed", "canceled"].contains i.stateType) && !(blocked.contains i.identifier))
  let withStatus := if (resolvedStatusTypes statusFilter).length > 0 then
      filterByStatus base (resolvedStatusTypes statusFilter)
    else base
  applyFilters o withStatus

/-- The status-filter branch of `cmdIssues` (none of the unblocked, all or open
flags, at least one `--status` given): `filterByStatus` then `applyFilters`. -/
def cmdIssuesStatusBranch (statusFilter : List String) (o : FilterOpts) (issues : List Issue) : List Issue :=
  applyFilters o (filterByStatus issues (resolvedStatusTypes statusFilter))

/-- Filter options in which no filter flag was given. -/
def noFilterOpts (v : Option String) : FilterOpts :=
  { mineOnly := false, viewerId := v, labelFilters := [], projectFilter := none,
    milestoneFilter := none, priority := none, aliases := [] }

lemma applyFilters_noFilter (v : Option String) (l : List Issue) :
    applyFilters (noFilterOpts v) l = l := by
  simp [applyFilters, noFilterOpts, show strToLower "" = "" from rfl]

lemma mem_blockedIds {issues : List Issue} {x : String} :
    x ∈ blockedIds issues ↔ ∃ j ∈ issues, ∃ r ∈ j.relations, r.type = "blocks" ∧ r.relatedId = x := by
  simp [blockedIds, List.mem_flatMap, List.mem_map, List.mem_filter]
  constructor
  · rintro ⟨j, hj, r, ⟨hr, hty⟩, hid⟩
    exact ⟨j, hj, r, hr, hty, hid⟩
  · rintro ⟨j, hj, r, hr, hty, hid⟩
    exact ⟨j, hj, r, ⟨hr, hty⟩, hid⟩

/-- C1: an issue is in the `--unblocked` result (with no other filters) iff its
coarse state type is neither completed nor canceled and no `blocks` relation
anywhere in the fetched set names its identifier as target; the right-hand side
never consults the state of the issue carrying the relation, so a completed or
canceled blocker still blocks its target. -/
theorem unblocked_iff_open_and_not_blocked (v : Option String) (issues : List Issue) (i : Issue) :
    i ∈ cmdIssuesUnblocked [] (noFilterOpts v) issues ↔
      i ∈ issues ∧ i.stateType ≠ "completed" ∧ i.stateType ≠ "canceled" ∧
        ∀ j ∈ issues, ∀ r ∈ j.relations, r.type = "blocks" → r.relatedId ≠ i.identifier := by
  have hbase : cmdIssuesUnblocked [] (noFilterOpts v) issues
      = issues.filter (fun i =>
          !(["completed", "canceled"].contains i.stateType) &&
          !((blockedIds issues).contains i.identifier)) := by
    simp [cmdIssuesUnblocked, resolvedStatusTypes, applyFilters_noFilter]
  rw [hbase, List.mem_filter]
  simp only [Bool.and_eq_true, Bool.not_eq_true']
  constructor
  · rintro ⟨hi, h1, h2⟩
    have hst : i.stateType ∉ ["completed", "canceled"] := by simpa using h1
    have hbl : i.identifier ∉ blockedIds issues := by simpa using h2
    simp only [List.mem_cons, List.not_mem_nil, or_false, not_or] at hst
    refine ⟨hi, hst.1, hst.2, ?_⟩
    intro j hj r hr hty hid
    exact hbl (mem_blockedIds.mpr ⟨j, hj, r, hr, hty, hid⟩)
  · rintro ⟨hi, hc, hk, hb⟩
    refine ⟨hi, by simp [hc, hk], ?_⟩
    have hbl : i.identifier ∉ blockedIds issues := by
      intro hmem
      obtain ⟨j, hj, r, hr, hty, hid⟩ := mem_blockedIds.mp hmem
      exact hb j hj r hr hty hid
    simpa using hbl

/-- JS `a.assignee?.id === viewerId` (an absent assignee and an absent viewer id
are both `undefined`, and `undefined === undefined`). -/
def isMine (v : Option String) (i : Issue) : Bool :=
  i.assigneeId == v

/-- JS `a.priority || 5`: no-priority (0) is replaced by 5 so it sorts after low (4). -/
def jsPriRank (p : Nat) : Nat :=
  if p = 0 then 5 else p

/-- The `cmdIssues` sort comparator: mine first, then `a.priority || 5` ascending,
then `sortOrder` descending. -/
def issueCmp (v : Option String) (a b : Issue) : ℚ :=
  if isMine v a && !(isMine v b) then -1
  else if !(isMine v a) && isMine v b then 1
  else if jsPriRank a.priority ≠ jsPriRank b.priority then
    (jsPriRank a.priority : ℚ) - (jsPriRank b.priority : ℚ)
  else b.sortOrder - a.sortOrder

/-- `issues.sort(comparator)`: a stable sort by the `cmdIssues` comparator. -/
def issuesDisplaySort (v : Option String) (issues : List Issue) : List Issue :=
  List.insertionSort (fun a b => issueCmp v a b ≤ 0) issues

/-- Rank 0 for issues assigned to the current viewer, 1 for all others. -/
def mineRank (v : Option String) (i : Issue) : Nat :=
  if isMine v i then 0 else 1

/-- The display order described by the spec: viewer-assigned issues strictly first,
then priority ordinal ascending with no-priority (0) ranked 5 so it sorts after
low (4), ties broken by `sortOrder` descending. -/
def claimedDisplayOrder (v : Option String) (a b : Issue) : Prop :=
  mineRank v a < mineRank v b ∨
    (mineRank v a = mineRank v b ∧
      (jsPriRank a.priority < jsPriRank b.priority ∨
        (jsPriRank a.priority = jsPriRank b.priority ∧ b.sortOrder ≤ a.sortOrder)))

lemma cast_sub_nonpos_iff (m n : Nat) : ((m : ℚ) - (n : ℚ) ≤ 0) ↔ m ≤ n := by
  rw [sub_nonpos, Nat.cast_le]

lemma issueCmp_rank_case (a b : Issue) :
    ((if jsPriRank a.priority = jsPriRank b.priority then b.sortOrder - a.sortOrder
      else (jsPriRank a.priority : ℚ) - (jsPriRank b.priority : ℚ)) ≤ 0) ↔
      (jsPriRank a.priority < jsPriRank b.priority ∨
        (jsPriRank a.priority = jsPriRank b.priority ∧ b.sortOrder ≤ a.sortOrder)) := by
  split_ifs with h
  · rw [sub_nonpos]
    simp [h]
  · rw [cast_sub_nonpos_iff]
    constructor
    · intro hle
      exact Or.inl (lt_of_le_of_ne hle h)
    · rintro (hlt | ⟨heq, _⟩)
      · exact le_of_lt hlt
      · exact absurd heq h

lemma issueCmp_le_iff_claimed (v : Option String) (a b : Issue) :
    issueCmp v a b ≤ 0 ↔ claimedDisplayOrder v a b := by
  unfold issueCmp claimedDisplayOrder mineRank
  cases ha : isMine v a <;> cases hb : isMine v b <;> simp only [ha, hb] <;> norm_num
  · exact issueCmp_rank_case a b
  · exact issueCmp_rank_case a b

lemma claimedDisplayOrder_total (v : Option String) (a b : Issue) :
    claimedDisplayOrder v a b ∨ claimedDisplayOrder v b a := by
  unfold claimedDisplayOrder
  rcases Nat.lt_trichotomy (mineRank v a) (mineRank v b) with h | h | h
  · exact Or.inl (Or.inl h)
  · rcases Nat.lt_trichotomy (jsPriRank a.priority) (jsPriRank b.priority) with h2 | h2 | h2
    · exact Or.inl (Or.inr ⟨h, Or.inl h2⟩)
    · rcases le_total b.sortOrder a.sortOrder with h3 | h3
      · exact Or.inl (Or.inr ⟨h, Or.inr ⟨h2, h3⟩⟩)
      · exact Or.inr (Or.inr ⟨h.symm, Or.inr ⟨h2.symm, h3⟩⟩)
    · exact Or.inr (Or.inr ⟨h.symm, Or.inl h2⟩)
  · exact Or.inr (Or.inl h)

lemma claimedDisplayOrder_trans (v : Option String) (a b c : Issue) :
    claimedDisplayOrder v a b → claimedDisplayOrder v b c → claimedDisplayOrder v a c := by
  unfold claimedDisplayOrder
  rintro (h1 | ⟨h1e, h1r⟩) (h2 | ⟨h2e, h2r⟩)
  · exact Or.inl (by omega)
  · exact Or.inl (by omega)
  · exact Or.inl (by omega)
  · refine Or.inr ⟨by omega, ?_⟩
    rcases h1r with hp1 | ⟨hp1, hs1⟩ <;> rcases h2r with hp2 | ⟨hp2, hs2⟩
    · exact Or.inl (by omega)
    · exact Or.inl (by omega)
    · exact Or.inl (by omega)
    · exact Or.inr ⟨by omega, le_trans hs2 hs1⟩

/-- C6: the issue-listing display order is a permutation of the fetched issues that
is sorted so that issues assigned to the current viewer come strictly before all
others, then by priority ordinal ascending with no-priority (0) ranked after
low (4), with ties broken by the issue's own `sortOrder` descending. -/
theorem issuesDisplaySort_mine_priority_sortOrder (v : Option String) (issues : List Issue) :
    (issuesDisplaySort v issues).Perm issues ∧
      List.Sorted (claimedDisplayOrder v) (issuesDisplaySort v issues) := by
  constructor
  · exact List.perm_insertionSort _ _
  · haveI : IsTotal Issue (fun a b => issueCmp v a b ≤ 0) :=
      ⟨fun a b => by
        rcases claimedDisplayOrder_total v a b with h | h
        · exact Or.inl ((issueCmp_le_iff_claimed v a b).mpr h)
        · exact Or.inr ((issueCmp_le_iff_claimed v b a).mpr h)⟩
    haveI : IsTrans Issue (fun a b => issueCmp v a b ≤ 0) :=
      ⟨fun a b c hab hbc => (issueCmp_le_iff_claimed v a c).mpr
        (claimedDisplayOrder_trans v a b c ((issueCmp_le_iff_claimed v a b).mp hab)
          ((issueCmp_le_iff_claimed v b c).mp hbc))⟩
    exact (List.sorted_insertionSort _ issues).imp
      (fun h => (issueCmp_le_iff_claimed v _ _).mp h)

lemma mem_ite_filter_pos {c : Prop} [Decidable c] {p : Issue → Bool} {l : List Issue} {i : Issue} :
    i ∈ (if c then l.filter p else l) ↔ i ∈ l ∧ (c → p i = true) := by
  split_ifs with h <;> simp [List.mem_filter, h]

lemma mem_ite_filter_neg {c : Prop} [Decidable c] {p : Issue → Bool} {l : List Issue} {i : Issue} :
    i ∈ (if c then l else l.filter p) ↔ i ∈ l ∧ (¬ c → p i = true) := by
  split_ifs with h <;> simp [List.mem_filter, h]

lemma mem_priority_stage (k : String) (l : List Issue) (i : Issue) :
    i ∈ (if strToLower k = "" then l else
      match PRIORITY_MAP (strToLower k) with
      | some target => l.filter (fun j => j.priority == target)
      | none => l) ↔
    i ∈ l ∧ (∀ t, PRIORITY_MAP (strToLower k) = some t → i.priority = t) := by
  split_ifs with h
  · rw [h]
    have hnone : PRIORITY_MAP "" = none := rfl
    simp [hnone]
  · cases hm : PRIORITY_MAP (strToLower k) with
    | none => simp [hm]
    | some t => simp [hm, List.mem_filter]

lemma mem_applyFilters (o : FilterOpts) (l : List Issue) (i : Issue) :
    i ∈ applyFilters o l ↔ i ∈ l
      ∧ (o.mineOnly = true → (i.assigneeId == o.viewerId) = true)
      ∧ (o.labelFilters.length > 0 →
          (o.labelFilters.any (fun lf => i.labels.any (fun lb => strToLower lb == strToLower lf))) = true)
      ∧ (¬ o.projectFilter.getD "" = "" → (match i.projectName with
            | some pn => strIncludes (strToLower pn) (strToLower (resolveAlias o.aliases (o.projectFilter.getD "")))
            | none => false) = true)
      ∧ (¬ o.milestoneFilter.getD "" = "" → (match i.milestoneName with
            | some mn => strIncludes (strToLower mn) (strToLower (resolveAlias o.aliases (o.milestoneFilter.getD "")))
            | none => false) = true)
      ∧ (∀ t, PRIORITY_MAP (strToLower (o.priority.getD "")) = some t → i.priority = t) := by
  simp only [applyFilters]
  rw [mem_priority_stage, mem_ite_filter_neg, mem_ite_filter_neg, mem_ite_filter_pos,
    mem_ite_filter_pos]
  tauto

lemma mem_filterByStatus (l : List Issue) (types : List String) (i : Issue) :
    i ∈ filterByStatus l types ↔
      i ∈ l ∧ (types.contains i.stateType || types.contains (strToLower i.stateName)) = true := by
  simp [filterByStatus, List.mem_filter]

lemma mem_or_mem_iff_exists (x y : String) (ts : List String) :
    (x ∈ ts ∨ y ∈ ts) ↔ ∃ s ∈ ts, x = s ∨ y = s := by
  constructor
  · rintro (h | h)
    · exact ⟨x, h, Or.inl rfl⟩
    · exact ⟨y, h, Or.inr rfl⟩
  · rintro ⟨s, hs, rfl | rfl⟩
    · exact Or.inl hs
    · exact Or.inr hs

/-- C7: in the status branch of `cmdIssues`, the filters compose as an
intersection across filter classes, while multiple statuses are OR-ed inside the
status class (coarse state type or case-insensitive display name) and the
repeatable label filter is match-any. -/
theorem filters_intersect_status_or (statusFilter : List String) (o : FilterOpts)
    (issues : List Issue) (i : Issue) :
    i ∈ cmdIssuesStatusBranch statusFilter o issues ↔
      i ∈ issues
      ∧ (∃ s ∈ resolvedStatusTypes statusFilter, i.stateType = s ∨ strToLower i.stateName = s)
      ∧ (o.mineOnly = true → i.assigneeId = o.viewerId)
      ∧ (o.labelFilters ≠ [] → ∃ lf ∈ o.labelFilters, ∃ lb ∈ i.labels, strToLower lb = strToLower lf)
      ∧ (∀ pf, o.projectFilter = some pf → pf ≠ "" →
          ∃ pn, i.projectName = some pn ∧
            strIncludes (strToLower pn) (strToLower (resolveAlias o.aliases pf)) = true)
      ∧ (∀ mf, o.milestoneFilter = some mf → mf ≠ "" →
          ∃ mn, i.milestoneName = some mn ∧
            strIncludes (strToLower mn) (strToLower (resolveAlias o.aliases mf)) = true)
      ∧ (∀ pr t, o.priority = some pr → PRIORITY_MAP (strToLower pr) = some t → i.priority = t) := by
  unfold cmdIssuesStatusBranch
  rw [mem_applyFilters, mem_filterByStatus]
  have hstatus : ((resolvedStatusTypes statusFilter).contains i.stateType ||
        (resolvedStatusTypes statusFilter).contains (strToLower i.stateName)) = true ↔
      ∃ s ∈ resolvedStatusTypes statusFilter, i.stateType = s ∨ strToLower i.stateName = s := by
    rw [← mem_or_mem_iff_exists]
    simp
  have hmine : ((i.assigneeId == o.viewerId) = true) ↔ i.assigneeId = o.viewerId := beq_iff_eq
  have hlabel : (o.labelFilters.length > 0 →
        (o.labelFilters.any (fun lf => i.labels.any (fun lb => strToLower lb == strToLower lf))) = true) ↔
      (o.labelFilters ≠ [] → ∃ lf ∈ o.labelFilters, ∃ lb ∈ i.labels, strToLower lb = strToLower lf) := by
    rw [← List.length_pos_iff_ne_nil]
    simp [List.any_eq_true]
  have hproj : (¬ o.projectFilter.getD "" = "" → (match i.projectName with
        | some pn => strIncludes (strToLower pn) (strToLower (resolveAlias o.aliases (o.projectFilter.getD "")))
        | none => false) = true) ↔
      (∀ pf, o.projectFilter = some pf → pf ≠ "" →
        ∃ pn, i.projectName = some pn ∧
          strIncludes (strToLower pn) (strToLower (resolveAlias o.aliases pf)) = true) := by
    cases o.projectFilter with
    | none => simp
    | some pf => cases i.projectName with
      | none => simp
      | some pn => simp
  have hmile : (¬ o.milestoneFilter.getD "" = "" → (match i.milestoneName with
        | some mn => strIncludes (strToLower mn) (strToLower (resolveAlias o.aliases (o.milestoneFilter.getD "")))
        | none => false) = true) ↔
      (∀ mf, o.milestoneFilter = some mf → mf ≠ "" →
        ∃ mn, i.milestoneName = some mn ∧
          strIncludes (strToLower mn) (strToLower (resolveAlias o.aliases mf)) = true) := by
    cases o.milestoneFilter with
    | none => simp
    | some mf => cases i.milestoneName with
      | none => simp
      | some mn => simp
  have hprio : (∀ t, PRIORITY_MAP (strToLower (o.priority.getD "")) = some t → i.priority = t) ↔
      (∀ pr t, o.priority = some pr → PRIORITY_MAP (strToLower pr) = some t → i.priority = t) := by
    cases o.priority with
    | none =>
      have hnone : PRIORITY_MAP (strToLower "") = none := rfl
      simp [hnone]
    | some pr =>
      simp only [Option.some.injEq, Option.getD_some]
      exact ⟨fun h pr2 t hpr => hpr ▸ h t, fun h t => h pr t rfl⟩
  rw [hstatus, hmine, hlabel, hproj, hmile, hprio, and_assoc]

/-- JS object assignment `obj[key] = value` on the association-list model of a
plain object: the new binding shadows and replaces any previous one for the key. -/
def objSet (t : AliasTable) (key value : String) : AliasTable :=
  (key, value) :: List.filter (fun p => !(p.1 == key)) t

/-- The in-memory effect of `saveAlias(code, name)`: `ALIASES[code.toUpperCase()] = name`. -/
def saveAliasTable (t : AliasTable) (code name : String) : AliasTable :=
  objSet t (strToUpper code) name

/-- The alias-mutation error surface. -/
inductive AliasError where
  | aliasNotFound
  deriving DecidableEq, Repr

/-- `removeAlias(code)`: fails when `!ALIASES[code.toUpperCase()]` (absent or empty),
otherwise deletes the binding. -/
def removeAliasTable (t : AliasTable) (code : String) : Except AliasError AliasTable :=
  let upperCode := strToUpper code
  if (aliasLookup t upperCode).getD "" = "" then Except.error AliasError.aliasNotFound
  else Except.ok (List.filter (fun p => !(p.1 == upperCode)) t)

lemma aliasLookup_objSet_self (t : AliasTable) (key value : String) :
    aliasLookup (objSet t key value) key = some value := by
  simp [aliasLookup, objSet, List.find?]

lemma aliasLookup_filter_out (t : AliasTable) (key : String) :
    aliasLookup (List.filter (fun p => !(p.1 == key)) t) key = none := by
  unfold aliasLookup
  have hfind : List.find? (fun p => p.1 == key) (List.filter (fun p => !(p.1 == key)) t) = none := by
    rw [List.find?_eq_none]
    intro p hp hbeq
    have h2 := List.of_mem_filter hp
    rw [hbeq] at h2
    exact absurd h2 (by decide)
  rw [hfind]
  rfl

/-- C8: with an active config file, `setAlias("V2", "Version 2")` makes `resolve`
return "Version 2" for the code in any letter case; after `removeAlias("V2")` the
same input resolves to itself; and `removeAlias` of an absent code fails with the
alias-not-found error. -/
theorem setAlias_resolve_removeAlias (t : AliasTable) (s c : String)
    (hs : strToUpper s = "V2") (hc : aliasLookup t (strToUpper c) = none) :
    resolveAlias (saveAliasTable t "V2" "Version 2") s = "Version 2"
    ∧ (∃ t2, removeAliasTable (saveAliasTable t "V2" "Version 2") "V2" = Except.ok t2
        ∧ resolveAlias t2 s = s)
    ∧ removeAliasTable t c = Except.error AliasError.aliasNotFound := by
  have hsne : s ≠ "" := by
    intro h
    rw [h] at hs
    exact absurd hs (by decide)
  have hupper : strToUpper "V2" = "V2" := by decide
  refine ⟨?_, ?_, ?_⟩
  · unfold resolveAlias
    rw [if_neg hsne, hs]
    have : aliasLookup (saveAliasTable t "V2" "Version 2") "V2" = some "Version 2" := by
      unfold saveAliasTable
      rw [hupper]
      exact aliasLookup_objSet_self t "V2" "Version 2"
    rw [this]
    simp
  · refine ⟨List.filter (fun p => !(p.1 == "V2")) (saveAliasTable t "V2" "Version 2"), ?_, ?_⟩
    · simp only [removeAliasTable]
      rw [hupper]
      have : aliasLookup (saveAliasTable t "V2" "Version 2") "V2" = some "Version 2" := by
        unfold saveAliasTable
        rw [hupper]
        exact aliasLookup_objSet_self t "V2" "Version 2"
      rw [this]
      simp
    · unfold resolveAlias
      rw [if_neg hsne, hs, aliasLookup_filter_out]
  · simp only [removeAliasTable]
    rw [hc]
    simp

/-- Witness for C8 at the concrete scenario of the spec. -/
theorem setAlias_resolve_removeAlias_witness :
    resolveAlias (saveAliasTable [] "V2" "Version 2") "v2" = "Version 2"
    ∧ (∃ t2, removeAliasTable (saveAliasTable [] "V2" "Version 2") "V2" = Except.ok t2
        ∧ resolveAlias t2 "v2" = "v2")
    ∧ removeAliasTable [] "x" = Except.error AliasError.aliasNotFound :=
  setAlias_resolve_removeAlias [] "v2" "x" (by decide) rfl

/-- JS `s.trim()`: strip whitespace from both ends. -/
def jsTrim (s : String) : String :=
  ⟨((s.data.dropWhile Char.isWhitespace).reverse.dropWhile Char.isWhitespace).reverse⟩

/-- JS `s.split(sep)` for a one-character separator: cut at every occurrence,
keeping empty segments. -/
def splitCharAux (sep : Char) : List Char → List Char → List String
  | [], acc => [⟨acc.reverse⟩]
  | c :: rest, acc =>
    if c = sep then (⟨acc.reverse⟩ : String) :: splitCharAux sep rest []
    else splitCharAux sep rest (c :: acc)

/-- JS `s.split(sep)` on strings. -/
def jsSplit (s : String) (sep : Char) : List String :=
  splitCharAux sep s.data []

/-- JS `parts.join(sep)`. -/
def joinWith (sep : String) : List String → String
  | [] => ""
  | [x] => x
  | x :: xs => x ++ sep ++ joinWith sep xs

/-- JS `s.startsWith(p)` on strings. -/
def strStartsWith (s p : String) : Bool :=
  charsStartsWith s.data p.data

/-- JS `s.endsWith(p)` on strings. -/
def strEndsWith (s p : String) : Bool :=
  charsStartsWith s.data.reverse p.data.reverse

/-- The module state populated by `loadConfig`: the api key, team key and alias
table, plus the parser's in-alias-section flag. -/
structure ConfigAcc where
  inAliasSection : Bool
  apiKey : String
  team : String
  aliases : AliasTable
  deriving Repr

/-- One iteration of the `loadConfig` line loop: skip blank and `#` lines, switch
section on `[aliases]` and other `[...]` headers, otherwise split on `=` and
record an alias (uppercased key) or the `api_key` and `team` scalars. -/
def configStep (st : ConfigAcc) (line : String) : ConfigAcc :=
  let trimmed := jsTrim line
  if trimmed = "" || strStartsWith trimmed "#" then st
  else if trimmed = "[aliases]" then { st with inAliasSection := true }
  else if strStartsWith trimmed "[" && strEndsWith trimmed "]" then { st with inAliasSection := false }
  else
    let parts := jsSplit line '='
    let key := jsTrim (parts.headD "")
    let value := jsTrim (joinWith "=" parts.tail)
    if st.inAliasSection then { st with aliases := objSet st.aliases (strToUpper key) value }
    else
      let st1 := if key = "api_key" then { st with apiKey := value } else st
      if key = "team" then { st1 with team := value } else st1

/-- The `loadConfig` parse of one config file content. -/
def parseConfig (content : String) : ConfigAcc :=
  (jsSplit content '\n').foldl configStep ⟨false, "", "", []⟩

/-- The environment fallbacks (`process.env.LINEAR_API_KEY || ''` and
`process.env.LINEAR_TEAM || ''`). -/
structure EnvVars where
  apiKey : String
  team : String

/-- `loadConfig()`: the local `./.linear` file, when it exists, is the single
active config file (else the global `~/.linear`); fields still empty after the
file parse fall back to the environment variables. -/
def loadConfig (localFile globalFile : Option String) (env : EnvVars) : ConfigAcc :=
  let active : Option String :=
    match localFile with
    | some c => some c
    | none => globalFile
  let parsed : ConfigAcc :=
    match active with
    | some c => parseConfig c
    | none => ⟨false, "", "", []⟩
  { parsed with
    apiKey := if parsed.apiKey = "" then env.apiKey else parsed.apiKey,
    team := if parsed.team = "" then env.team else parsed.team }

/-- C4 counterexample: with a global file `team=ISSUE` and a local file containing
only `api_key=lin_local` (and no environment variables), the resolved team is
empty — the local file fully shadows the global file — not the `ISSUE` the
field-by-field merge claim predicts. -/
theorem loadConfig_not_field_merged :
    (loadConfig (some "api_key=lin_local") (some "team=ISSUE") ⟨"", ""⟩).apiKey = "lin_local"
    ∧ (loadConfig (some "api_key=lin_local") (some "team=ISSUE") ⟨"", ""⟩).team = ""
    ∧ (loadConfig (some "api_key=lin_local") (some "team=ISSUE") ⟨"", ""⟩).team ≠ "ISSUE" := by
  refine ⟨rfl, rfl, ?_⟩
  intro h
  rw [show (loadConfig (some "api_key=lin_local") (some "team=ISSUE") ⟨"", ""⟩).team = "" from rfl] at h
  exact absurd h (by decide)

/-- The parse of the single active file: local content when present, else global,
else nothing. -/
def activeParsed (localFile globalFile : Option String) : ConfigAcc :=
  parseConfig ((localFile.orElse (fun _ => globalFile)).getD "")

/-- C4 amended: `loadConfig` activates one file only — the local file when it
exists, else the global file; each recognized field is read from the active file
alone and falls back to the environment variable exactly when it is empty or
absent there; the shadowed file contributes nothing to any field. -/
theorem loadConfig_single_active_file (localFile globalFile : Option String) (env : EnvVars) :
    (∀ lc, localFile = some lc →
      loadConfig localFile globalFile env = loadConfig localFile none env)
    ∧ (loadConfig localFile globalFile env).apiKey =
        (if (activeParsed localFile globalFile).apiKey = "" then env.apiKey
          else (activeParsed localFile globalFile).apiKey)
    ∧ (loadConfig localFile globalFile env).team =
        (if (activeParsed localFile globalFile).team = "" then env.team
          else (activeParsed localFile globalFile).team) := by
  refine ⟨?_, ?_, ?_⟩
  · rintro lc rfl
    rfl
  · cases localFile with
    | some lc => rfl
    | none => cases globalFile with
      | some gc => rfl
      | none => rfl
  · cases localFile with
    | some lc => rfl
    | none => cases globalFile with
      | some gc => rfl
      | none => rfl

/-- Witness for C4 (amended) at the spec scenario: the global file is irrelevant
once a local file exists. -/
theorem loadConfig_single_active_file_witness :
    loadConfig (some "api_key=lin_local") (some "team=ISSUE") ⟨"", ""⟩
      = loadConfig (some "api_key=lin_local") none ⟨"", ""⟩ :=
  (loadConfig_single_active_file (some "api_key=lin_local") (some "team=ISSUE") ⟨"", ""⟩).1
    "api_key=lin_local" rfl

/-- The scan state of `saveAlias` (`aliasStart`, `aliasEnd`, `existingAliasLine`,
with `none` for the JS `-1` sentinels). -/
structure ScanState where
  aliasStart : Option Nat
  aliasEnd : Option Nat
  existing : Option Nat
  deriving DecidableEq, Repr

/-- The key a `saveAlias` scan reads from a line:
`trimmed.split('=')[0].trim().toUpperCase()`. -/
def aliasKeyOf (line : String) : String :=
  strToUpper (jsTrim ((jsSplit (jsTrim line) '=').headD ""))

/-- One iteration of the `saveAlias` scan loop over `lines[i]`. -/
def scanStep (upperCode : String) (st : ScanState) (i : Nat) (line : String) : ScanState :=
  let trimmed := jsTrim line
  if trimmed = "[aliases]" then { st with aliasStart := some i }
  else if st.aliasStart.isSome && st.aliasEnd.isNone then
    if strStartsWith trimmed "[" && strEndsWith trimmed "]" then { st with aliasEnd := some i }
    else if !(trimmed == "") && !(strStartsWith trimmed "#") then
      (if aliasKeyOf line = upperCode then { st with existing := some i } else st)
    else st
  else st

/-- The `saveAlias` scan over all lines, carrying the running index. -/
def scanAliases (upperCode : String) : List String → Nat → ScanState → ScanState
  | [], _, st => st
  | line :: rest, i, st => scanAliases upperCode rest (i + 1) (scanStep upperCode st i line)

/-- JS `lines.splice(n, 0, x)`: insert `x` at index `n`. -/
def spliceInsert (n : Nat) (x : String) (l : List String) : List String :=
  l.take n ++ x :: l.drop n

/-- `saveAlias(code, name)`, the file rewrite: update an existing alias line in
place, else insert right after the `[aliases]` header, else append a new section
at end of file. -/
def saveAliasLines (lines : List String) (code name : String) : List String :=
  let upperCode := strToUpper code
  let st := scanAliases upperCode lines 0 ⟨none, none, none⟩
  let aliasLine := upperCode ++ "=" ++ name
  match st.existing with
  | some i => lines.set i aliasLine
  | none =>
    match st.aliasStart with
    | some i => spliceInsert (i + 1) aliasLine lines
    | none =>
      let lines2 := if lines.getLast? ≠ some "" then lines ++ [""] else lines
      lines2 ++ ["[aliases]", aliasLine]

/-- A line whose trimmed text is a `[...]` section header. -/
def isHeaderLine (line : String) : Bool :=
  strStartsWith (jsTrim line) "[" && strEndsWith (jsTrim line) "]"

/-- The given upper-cased code appears as the key of no line of the alias section
(the lines up to the first subsequent section header). -/
def windowClear (upperCode : String) : List String → Bool
  | [] => true
  | line :: rest =>
    if isHeaderLine line then true
    else (!(aliasKeyOf line == upperCode)) && windowClear upperCode rest

lemma scanAliases_append (u : String) (l1 l2 : List String) (i : Nat) (st : ScanState) :
    scanAliases u (l1 ++ l2) i st
      = scanAliases u l2 (i + l1.length) (scanAliases u l1 i st) := by
  induction l1 generalizing i st with
  | nil => simp [scanAliases]
  | cons x xs ih =>
    rw [List.cons_append, scanAliases, scanAliases, ih]
    have harith : i + 1 + xs.length = i + (xs.length + 1) := by omega
    rw [harith]
    rfl

lemma scanAliases_pre (u : String) (l : List String) (i : Nat)
    (h : ∀ line ∈ l, jsTrim line ≠ "[aliases]") :
    scanAliases u l i ⟨none, none, none⟩ = ⟨none, none, none⟩ := by
  induction l generalizing i with
  | nil => rfl
  | cons x xs ih =>
    rw [scanAliases]
    have hstep : scanStep u ⟨none, none, none⟩ i x = ⟨none, none, none⟩ := by
      simp [scanStep, h x (List.mem_cons_self x xs)]
    rw [hstep]
    exact ih (i + 1) (fun line hl => h line (List.mem_cons_of_mem x hl))

lemma scanAliases_after_end (u : String) (l : List String) (i : Nat)
    (s : Option Nat) (h0 : Nat) (e : Option Nat)
    (h : ∀ line ∈ l, jsTrim line ≠ "[aliases]") :
    scanAliases u l i ⟨s, some h0, e⟩ = ⟨s, some h0, e⟩ := by
  induction l generalizing i with
  | nil => rfl
  | cons x xs ih =>
    rw [scanAliases]
    have hstep : scanStep u ⟨s, some h0, e⟩ i x = ⟨s, some h0, e⟩ := by
      simp [scanStep, h x (List.mem_cons_self x xs)]
    rw [hstep]
    exact ih (i + 1) (fun line hl => h line (List.mem_cons_of_mem x hl))

lemma scanAliases_window (u : String) (l : List String) (i : Nat) (k : Nat)
    (hni : ∀ line ∈ l, jsTrim line ≠ "[aliases]")
    (hcl : windowClear u l = true) :
    ∃ e, scanAliases u l i ⟨some k, none, none⟩ = ⟨some k, e, none⟩ := by
  induction l generalizing i with
  | nil => exact ⟨none, rfl⟩
  | cons x xs ih =>
    have hx : jsTrim x ≠ "[aliases]" := hni x (List.mem_cons_self x xs)
    by_cases hh : isHeaderLine x = true
    · have hstep : scanStep u ⟨some k, none, none⟩ i x = ⟨some k, some i, none⟩ := by
        have hh2 : (strStartsWith (jsTrim x) "[" && strEndsWith (jsTrim x) "]") = true := hh
        simp [scanStep, hx, hh2]
      rw [scanAliases, hstep,
        scanAliases_after_end u xs (i + 1) (some k) i none
          (fun line hl => hni line (List.mem_cons_of_mem x hl))]
      exact ⟨some i, rfl⟩
    · have hcl2 : (!(aliasKeyOf x == u)) = true ∧ windowClear u xs = true := by
        rw [windowClear, if_neg hh, Bool.and_eq_true] at hcl
        exact hcl
      have hkey : aliasKeyOf x ≠ u := by
        have := hcl2.1
        simp at this
        exact this
      have hh2 : (strStartsWith (jsTrim x) "[" && strEndsWith (jsTrim x) "]") = false := by
        rw [← isHeaderLine]
        exact Bool.not_eq_true _ ▸ (by simpa using hh)
      have hstep : scanStep u ⟨some k, none, none⟩ i x = ⟨some k, none, none⟩ := by
        simp [scanStep, hx, hh2, hkey]
      rw [scanAliases, hstep]
      exact ih (i + 1) (fun line hl => hni line (List.mem_cons_of_mem x hl)) hcl2.2

lemma spliceInsert_after_prefix (pre post : List String) (y x : String) :
    spliceInsert (pre.length + 1) x (pre ++ y :: post) = pre ++ y :: x :: post := by
  induction pre with
  | nil => simp [spliceInsert]
  | cons a as ih =>
    simp only [spliceInsert, List.length_cons, List.cons_append, List.take_succ_cons,
      List.drop_succ_cons] at ih ⊢
    rw [ih]

/-- C9: when the file already has an `[aliases]` section (unique header line) and
the code is not present in that section, `saveAlias` inserts exactly one new line
`CODE=name` immediately after the `[aliases]` header; every other line is kept
unchanged in its original relative order (new aliases are prepended to the
section, not appended). -/
theorem saveAlias_prepends_into_section (pre post : List String) (header code name : String)
    (hheader : jsTrim header = "[aliases]")
    (hpre : ∀ line ∈ pre, jsTrim line ≠ "[aliases]")
    (hpost : ∀ line ∈ post, jsTrim line ≠ "[aliases]")
    (hclear : windowClear (strToUpper code) post = true) :
    saveAliasLines (pre ++ header :: post) code name
      = pre ++ header :: (strToUpper code ++ "=" ++ name) :: post := by
  obtain ⟨e, he⟩ := scanAliases_window (strToUpper code) post (pre.length + 1) pre.length
    hpost hclear
  have hstep : scanStep (strToUpper code) ⟨none, none, none⟩ pre.length header
      = ⟨some pre.length, none, none⟩ := by
    simp [scanStep, hheader]
  have hscan : scanAliases (strToUpper code) (pre ++ header :: post) 0 ⟨none, none, none⟩
      = ⟨some pre.length, e, none⟩ := by
    rw [scanAliases_append, scanAliases_pre (strToUpper code) pre 0 hpre, Nat.zero_add,
      scanAliases, hstep, he]
  simp only [saveAliasLines]
  rw [hscan]
  exact spliceInsert_after_prefix pre post header (strToUpper code ++ "=" ++ name)

/-- Witness for C9 on a concrete three-line config file. -/
theorem saveAlias_prepends_into_section_witness :
    saveAliasLines ["api_key=k", "[aliases]", "OLD=Something"] "v2" "Version 2"
      = ["api_key=k", "[aliases]", "V2=Version 2", "OLD=Something"] := by
  have h := saveAlias_prepends_into_section ["api_key=k"] ["OLD=Something"]
    "[aliases]" "v2" "Version 2" (by decide) (by decide) (by decide) (by decide)
  exact h.trans (by decide)

/-- The flag declarations accepted by `parseArgs` (`'boolean'`, `'array'`, or the
plain value-taking default `'string'`). -/
inductive FlagTy where
  | boolean
  | array
  | string
  deriving DecidableEq, Repr

/-- A value stored in the `parseArgs` result object. -/
inductive ArgVal where
  | boolVal : ArgVal
  | strVal : String → ArgVal
  | arrVal : List String → ArgVal
  deriving DecidableEq, Repr

/-- JS object assignment on a generic association-list object. -/
def objUpd (t : List (String × ArgVal)) (key : String) (value : ArgVal) : List (String × ArgVal) :=
  (key, value) :: List.filter (fun p => !(p.1 == key)) t

/-- JS object read on a generic association-list object. -/
def objGet (t : List (String × ArgVal)) (key : String) : Option ArgVal :=
  (List.find? (fun p => p.1 == key) t).map (·.2)

/-- The `parseArgs` result: `result._` and the flag assignments. -/
structure ParseResult where
  positional : List String
  flags : List (String × ArgVal)
  deriving DecidableEq, Repr

/-- The `--key requires a value` error printed before `process.exit(1)`. -/
inductive ParseError where
  | requiresValue (key : String)
  deriving DecidableEq, Repr

/-- JS `arg.replace(/^-+/, '')`. -/
def stripDashes (s : String) : String :=
  ⟨s.data.dropWhile (· = '-')⟩

/-- The `parseArgs` loop: a token starting with `-` is a flag; a boolean flag
stores `true`, an array flag consumes and appends the next token, any other flag
(declared `'string'` or undeclared) consumes the next token; a missing next token
or one starting with `-` is a fatal `requires a value` error; other tokens are
positional. -/
def parseArgsGo (flags : String → Option FlagTy) :
    List String → ParseResult → Except ParseError ParseResult
  | [], st => Except.ok st
  | arg :: rest, st =>
    if strStartsWith arg "--" || strStartsWith arg "-" then
      let key := stripDashes arg
      match flags key with
      | some FlagTy.boolean =>
        parseArgsGo flags rest { st with flags := objUpd st.flags key ArgVal.boolVal }
      | some FlagTy.array =>
        match rest with
        | [] => Except.error (ParseError.requiresValue key)
        | value :: rest2 =>
          if strStartsWith value "-" then Except.error (ParseError.requiresValue key)
          else
            let newArr := match objGet st.flags key with
              | some (ArgVal.arrVal vs) => vs ++ [value]
              | _ => [value]
            parseArgsGo flags rest2 { st with flags := objUpd st.flags key (ArgVal.arrVal newArr) }
      | _ =>
        match rest with
        | [] => Except.error (ParseError.requiresValue key)
        | value :: rest2 =>
          if strStartsWith value "-" then Except.error (ParseError.requiresValue key)
          else parseArgsGo flags rest2 { st with flags := objUpd st.flags key (ArgVal.strVal value) }
    else parseArgsGo flags rest { st with positional := st.positional ++ [arg] }

/-- `parseArgs(args, flags)`. -/
def parseArgs (flags : String → Option FlagTy) (args : List String) : Except ParseError ParseResult :=
  parseArgsGo flags args ⟨[], []⟩

/-- No stored option value starts with a hyphen. -/
def flagsHyphenFree (t : List (String × ArgVal)) : Prop :=
  (∀ key v, objGet t key = some (ArgVal.strVal v) → strStartsWith v "-" = false)
  ∧ (∀ key vs v, objGet t key = some (ArgVal.arrVal vs) → v ∈ vs → strStartsWith v "-" = false)

lemma find?_filter_ne (t : List (String × ArgVal)) (key key2 : String) (h : key2 ≠ key) :
    List.find? (fun p => p.1 == key2) (List.filter (fun p => !(p.1 == key)) t)
      = List.find? (fun p => p.1 == key2) t := by
  induction t with
  | nil => rfl
  | cons p ps ih =>
    by_cases hk : p.1 = key
    · have h2 : (p.1 == key2) = false := by simp [hk, Ne.symm h]
      simp [List.filter_cons, List.find?_cons, hk, h2, ih, Ne.symm h]
    · by_cases hk2 : p.1 = key2
      · simp [List.filter_cons, List.find?_cons, hk, hk2, h]
      · simp [List.filter_cons, List.find?_cons, hk, hk2, ih]

lemma objGet_objUpd (t : List (String × ArgVal)) (key key2 : String) (value : ArgVal) :
    objGet (objUpd t key value) key2 = if key2 = key then some value else objGet t key2 := by
  unfold objGet objUpd
  by_cases h : key2 = key
  · subst h
    simp [List.find?_cons]
  · rw [if_neg h]
    have hbeq : (key == key2) = false := by simp [Ne.symm h]
    rw [List.find?_cons]
    simp only [hbeq, Bool.false_eq_true, if_false]
    rw [find?_filter_ne t key key2 h]

lemma flagsHyphenFree_upd_bool (t : List (String × ArgVal)) (key : String)
    (h : flagsHyphenFree t) : flagsHyphenFree (objUpd t key ArgVal.boolVal) := by
  constructor
  · intro key2 v hget
    rw [objGet_objUpd] at hget
    split_ifs at hget
    · cases hget
    · exact h.1 key2 v hget
  · intro key2 vs v hget hv
    rw [objGet_objUpd] at hget
    split_ifs at hget
    · cases hget
    · exact h.2 key2 vs v hget hv

lemma flagsHyphenFree_upd_str (t : List (String × ArgVal)) (key v0 : String)
    (hv0 : strStartsWith v0 "-" = false) (h : flagsHyphenFree t) :
    flagsHyphenFree (objUpd t key (ArgVal.strVal v0)) := by
  constructor
  · intro key2 v hget
    rw [objGet_objUpd] at hget
    split_ifs at hget
    · cases hget
      exact hv0
    · exact h.1 key2 v hget
  · intro key2 vs v hget hv
    rw [objGet_objUpd] at hget
    split_ifs at hget
    · cases hget
    · exact h.2 key2 vs v hget hv

lemma flagsHyphenFree_upd_arr (t : List (String × ArgVal)) (key : String) (vs0 : List String)
    (hvs0 : ∀ v ∈ vs0, strStartsWith v "-" = false) (h : flagsHyphenFree t) :
    flagsHyphenFree (objUpd t key (ArgVal.arrVal vs0)) := by
  constructor
  · intro key2 v hget
    rw [objGet_objUpd] at hget
    split_ifs at hget
    · cases hget
    · exact h.1 key2 v hget
  · intro key2 vs v hget hv
    rw [objGet_objUpd] at hget
    split_ifs at hget
    · cases hget
      exact hvs0 v hv
    · exact h.2 key2 vs v hget hv

lemma parseArgsGo_hyphenFree (flags : String → Option FlagTy) :
    ∀ (args : List String) (st res : ParseResult),
      flagsHyphenFree st.flags → parseArgsGo flags args st = Except.ok res →
      flagsHyphenFree res.flags
  | [], st, res, h, hok => by
      simp only [parseArgsGo] at hok
      cases hok
      exact h
  | arg :: rest, st, res, h, hok => by
      simp only [parseArgsGo] at hok
      split at hok
      · split at hok
        · exact parseArgsGo_hyphenFree flags rest _ res
            (flagsHyphenFree_upd_bool st.flags (stripDashes arg) h) hok
        · split at hok
          · exact Except.noConfusion hok
          · split at hok
            · exact Except.noConfusion hok
            · rename_i xs value rest2 hval
              refine parseArgsGo_hyphenFree flags rest2 _ res ?_ hok
              refine flagsHyphenFree_upd_arr st.flags (stripDashes arg) _ ?_ h
              intro v hv
              cases hget : objGet st.flags (stripDashes arg) with
              | none =>
                rw [hget] at hv
                simp at hv
                subst hv
                simpa using hval
              | some av =>
                cases av with
                | boolVal =>
                  rw [hget] at hv
                  simp at hv
                  subst hv
                  simpa using hval
                | strVal s =>
                  rw [hget] at hv
                  simp at hv
                  subst hv
                  simpa using hval
                | arrVal vs =>
                  rw [hget] at hv
                  simp at hv
                  cases hv with
                  | inl hvv => exact h.2 (stripDashes arg) vs v hget hvv
                  | inr hvv =>
                    subst hvv
                    simpa using hval
        · split at hok
          · exact Except.noConfusion hok
          · split at hok
            · exact Except.noConfusion hok
            · rename_i xs value rest2 hval
              exact parseArgsGo_hyphenFree flags rest2 _ res
                (flagsHyphenFree_upd_str st.flags (stripDashes arg) value
                  (by simpa using hval) h) hok
      · exact parseArgsGo_hyphenFree flags rest
          { st with positional := st.positional ++ [arg] } res h hok

lemma parseArgsGo_missing_value (flags : String → Option FlagTy) :
    ∀ (args : List String) (st : ParseResult) (i : Nat) (tok : String),
      args.get? i = some tok →
      strStartsWith tok "-" = true →
      (flags (stripDashes tok) = some FlagTy.array ∨ flags (stripDashes tok) = some FlagTy.string) →
      (args.get? (i + 1) = none ∨ ∃ v, args.get? (i + 1) = some v ∧ strStartsWith v "-" = true) →
      ∃ k, parseArgsGo flags args st = Except.error (ParseError.requiresValue k)
  | [], _, i, tok, hget, _, _, _ => by simp at hget
  | arg :: rest, st, i, tok, hget, hdash0, hdecl, hnext => by
    cases i with
    | zero =>
      have harg : arg = tok := by simpa using hget
      subst harg
      have hcond : (strStartsWith arg "--" || strStartsWith arg "-") = true := by
        rw [Bool.or_eq_true]
        exact Or.inr hdash0
      refine ⟨stripDashes arg, ?_⟩
      simp only [parseArgsGo]
      rw [if_pos hcond]
      rcases hdecl with hfl | hfl
      · simp only [hfl]
        cases rest with
        | nil => rfl
        | cons value rest2 =>
          have hval : strStartsWith value "-" = true := by
            rcases hnext with hnone | ⟨v, hv, hvs⟩
            · simp at hnone
            · have : value = v := by simpa using hv
              rw [this]
              exact hvs
          simp [hval]
      · simp only [hfl]
        cases rest with
        | nil => rfl
        | cons value rest2 =>
          have hval : strStartsWith value "-" = true := by
            rcases hnext with hnone | ⟨v, hv, hvs⟩
            · simp at hnone
            · have : value = v := by simpa using hv
              rw [this]
              exact hvs
          simp [hval]
    | succ i2 =>
      have hget2 : rest.get? i2 = some tok := by simpa using hget
      have hnext2 : rest.get? (i2 + 1) = none ∨
          ∃ v, rest.get? (i2 + 1) = some v ∧ strStartsWith v "-" = true := by
        rcases hnext with hnone | ⟨v, hv, hvs⟩
        · exact Or.inl (by simpa using hnone)
        · exact Or.inr ⟨v, by simpa using hv, hvs⟩
      simp only [parseArgsGo]
      by_cases hdash : (strStartsWith arg "--" || strStartsWith arg "-") = true
      · rw [if_pos hdash]
        cases hfl : flags (stripDashes arg) with
        | some ty =>
          cases ty with
          | boolean =>
            simp only [hfl]
            exact parseArgsGo_missing_value flags rest _ i2 tok hget2 hdash0 hdecl hnext2
          | array =>
            simp only [hfl]
            cases rest with
            | nil => simp at hget2
            | cons value rest2 =>
              by_cases hval : strStartsWith value "-" = true
              · exact ⟨stripDashes arg, by simp [hval]⟩
              · simp only [if_neg hval]
                cases i2 with
                | zero =>
                  have : value = tok := by simpa using hget2
                  exact absurd (this ▸ hdash0) hval
                | succ i3 =>
                  have hget3 : rest2.get? i3 = some tok := by simpa using hget2
                  have hnext3 : rest2.get? (i3 + 1) = none ∨
                      ∃ v, rest2.get? (i3 + 1) = some v ∧ strStartsWith v "-" = true := by
                    rcases hnext2 with hnone | ⟨v, hv, hvs⟩
                    · exact Or.inl (by simpa using hnone)
                    · exact Or.inr ⟨v, by simpa using hv, hvs⟩
                  exact parseArgsGo_missing_value flags rest2 _ i3 tok hget3 hdash0 hdecl hnext3
          | string =>
            simp only [hfl]
            cases rest with
            | nil => simp at hget2
            | cons value rest2 =>
              by_cases hval : strStartsWith value "-" = true
              · exact ⟨stripDashes arg, by simp [hval]⟩
              · simp only [if_neg hval]
                cases i2 with
                | zero =>
                  have : value = tok := by simpa using hget2
                  exact absurd (this ▸ hdash0) hval
                | succ i3 =>
                  have hget3 : rest2.get? i3 = some tok := by simpa using hget2
                  have hnext3 : rest2.get? (i3 + 1) = none ∨
                      ∃ v, rest2.get? (i3 + 1) = some v ∧ strStartsWith v "-" = true := by
                    rcases hnext2 with hnone | ⟨v, hv, hvs⟩
                    · exact Or.inl (by simpa using hnone)
                    · exact Or.inr ⟨v, by simpa using hv, hvs⟩
                  exact parseArgsGo_missing_value flags rest2 _ i3 tok hget3 hdash0 hdecl hnext3
        | none =>
          simp only [hfl]
          cases rest with
          | nil => simp at hget2
          | cons value rest2 =>
            by_cases hval : strStartsWith value "-" = true
            · exact ⟨stripDashes arg, by simp [hval]⟩
            · simp only [if_neg hval]
              cases i2 with
              | zero =>
                have : value = tok := by simpa using hget2
                exact absurd (this ▸ hdash0) hval
              | succ i3 =>
                have hget3 : rest2.get? i3 = some tok := by simpa using hget2
                have hnext3 : rest2.get? (i3 + 1) = none ∨
                    ∃ v, rest2.get? (i3 + 1) = some v ∧ strStartsWith v "-" = true := by
                  rcases hnext2 with hnone | ⟨v, hv, hvs⟩
                  · exact Or.inl (by simpa using hnone)
                  · exact Or.inr ⟨v, by simpa using hv, hvs⟩
                exact parseArgsGo_missing_value flags rest2 _ i3 tok hget3 hdash0 hdecl hnext3
      · rw [if_neg hdash]
        exact parseArgsGo_missing_value flags rest
          { st with positional := st.positional ++ [arg] } i2 tok hget2 hdash0 hdecl hnext2

/-- C10: a declared non-boolean flag whose following token is absent or starts
with a hyphen makes `parseArgs` fail with a `requires a value` error; and in any
successful parse, no stored value of any value-taking option starts with a
hyphen. -/
theorem parseArgs_requires_value_and_no_hyphen_values (flags : String → Option FlagTy) :
    (∀ (args : List String) (i : Nat) (tok : String),
      args.get? i = some tok →
      strStartsWith tok "-" = true →
      (flags (stripDashes tok) = some FlagTy.array ∨ flags (stripDashes tok) = some FlagTy.string) →
      (args.get? (i + 1) = none ∨ ∃ v, args.get? (i + 1) = some v ∧ strStartsWith v "-" = true) →
      ∃ k, parseArgs flags args = Except.error (ParseError.requiresValue k))
    ∧ (∀ (args : List String) (res : ParseResult),
        parseArgs flags args = Except.ok res → flagsHyphenFree res.flags) := by
  constructor
  · intro args i tok h1 h2 h3 h4
    exact parseArgsGo_missing_value flags args ⟨[], []⟩ i tok h1 h2 h3 h4
  · intro args res hok
    refine parseArgsGo_hyphenFree flags args ⟨[], []⟩ res ⟨?_, ?_⟩ hok
    · intro key v hget
      simp [objGet] at hget
    · intro key vs v hget hv
      simp [objGet] at hget

/-- Witness for C10: a declared string flag at the end of the arguments fails
with the requires-a-value error, and a successful parse stores hyphen-free
values. -/
theorem parseArgs_requires_value_witness :
    (∃ k, parseArgs (fun s => if s = "project" then some FlagTy.string else none) ["--project"]
        = Except.error (ParseError.requiresValue k))
    ∧ flagsHyphenFree
        ({ positional := [], flags := [("project", ArgVal.strVal "x")] } : ParseResult).flags := by
  constructor
  · exact (parseArgs_requires_value_and_no_hyphen_values
      (fun s => if s = "project" then some FlagTy.string else none)).1
      ["--project"] 0 "--project" rfl (by decide) (Or.inr (by decide)) (Or.inl rfl)
  · exact (parseArgs_requires_value_and_no_hyphen_values
      (fun s => if s = "project" then some FlagTy.string else none)).2
      ["--project", "x"] _ rfl

/-- A sibling node of the sort-order engine: `nodes { id identifier sortOrder }`. -/
structure Sib where
  identifier : String
  sortOrder : ℚ
  deriving DecidableEq, Repr

/-- `issues.sort((a, b) => (b.sortOrder || 0) - (a.sortOrder || 0))`: a stable
sort descending by key. -/
def sortSibsDesc (l : List Sib) : List Sib :=
  List.insertionSort (fun a b => b.sortOrder ≤ a.sortOrder) l

/-- The new sort key computed by `cmdIssueMove` (and the identical project and
milestone movers): sort the siblings descending, locate the anchor, then take
the midpoint with the neighbor on the requested side, or anchor key ± 1000 when
the anchor is at that boundary (JS `issues[targetIdx - 1]` is `undefined` when
`targetIdx` is 0). -/
def moveOneNewKey (issues : List Sib) (issueId anchorId : String) (before : Bool) : Option ℚ :=
  let sorted := sortSibsDesc issues
  match sorted.find? (fun i => i.identifier == strToUpper issueId),
        sorted.find? (fun i => i.identifier == strToUpper anchorId) with
  | some _, some target =>
    let targetIdx := sorted.findIdx (fun i => i.identifier == target.identifier)
    if before then
      match (if targetIdx = 0 then none else sorted.get? (targetIdx - 1)) with
      | some prev => some ((target.sortOrder + prev.sortOrder) / 2)
      | none => some (target.sortOrder + 1000)
    else
      match sorted.get? (targetIdx + 1) with
      | some next => some ((target.sortOrder + next.sortOrder) / 2)
      | none => some (target.sortOrder - 1000)
  | _, _ => none

/-- The single `issueUpdate` mutation issued by `cmdIssueMove`, applied to the
remote sibling set: only the moved issue gets the new key. -/
def applyMoveOne (issues : List Sib) (issueId anchorId : String) (before : Bool) :
    Option (List Sib) :=
  match moveOneNewKey issues issueId anchorId before with
  | some newKey => some (issues.map (fun s =>
      if s.identifier == strToUpper issueId then { s with sortOrder := newKey } else s))
  | none => none

lemma find?_eq_get_of_nodup (l : List Sib) (k : Nat) (hk : k < l.length) (x : String)
    (hx : (l.get ⟨k, hk⟩).identifier = x)
    (hnodup : (l.map (fun s => s.identifier)).Nodup) :
    l.find? (fun i => i.identifier == x) = some (l.get ⟨k, hk⟩) := by
  induction l generalizing k with
  | nil => exact absurd hk (by simp)
  | cons a t ih =>
    cases k with
    | zero =>
      simp only [List.get] at hx
      rw [List.find?_cons]
      simp [hx]
    | succ k2 =>
      have hk2 : k2 < t.length := by simpa using hk
      have hget : (t.get ⟨k2, hk2⟩).identifier = x := hx
      have hmem : x ∈ t.map (fun s => s.identifier) := by
        rw [← hget]
        exact List.mem_map_of_mem _ (t.get_mem k2 hk2)
      have hane : (a.identifier == x) = false := by
        by_contra hcon
        have : a.identifier = x := by
          have := Bool.not_eq_false _ ▸ hcon
          simpa using this
        rw [List.map_cons, List.nodup_cons] at hnodup
        exact hnodup.1 (this ▸ hmem)
      rw [List.find?_cons]
      simp only [hane, Bool.false_eq_true, if_false]
      exact ih k2 hk2 hget (by
        rw [List.map_cons, List.nodup_cons] at hnodup
        exact hnodup.2)

lemma findIdx_eq_of_nodup (l : List Sib) (k : Nat) (hk : k < l.length)
    (hnodup : (l.map (fun s => s.identifier)).Nodup) :
    l.findIdx (fun i => i.identifier == (l.get ⟨k, hk⟩).identifier) = k := by
  induction l generalizing k with
  | nil => exact absurd hk (by simp)
  | cons a t ih =>
    cases k with
    | zero =>
      rw [List.findIdx_cons]
      simp
    | succ k2 =>
      have hk2 : k2 < t.length := by simpa using hk
      have hget : ((a :: t).get ⟨k2 + 1, hk⟩) = t.get ⟨k2, hk2⟩ := rfl
      have hmem : (t.get ⟨k2, hk2⟩).identifier ∈ t.map (fun s => s.identifier) :=
        List.mem_map_of_mem _ (t.get_mem k2 hk2)
      have hane : (a.identifier == (t.get ⟨k2, hk2⟩).identifier) = false := by
        by_contra hcon
        have : a.identifier = (t.get ⟨k2, hk2⟩).identifier := by
          have := Bool.not_eq_false _ ▸ hcon
          simpa using this
        rw [List.map_cons, List.nodup_cons] at hnodup
        exact hnodup.1 (this ▸ hmem)
      rw [hget, List.findIdx_cons, hane]
      simp only [cond_false]
      rw [ih k2 hk2 (by
        rw [List.map_cons, List.nodup_cons] at hnodup
        exact hnodup.2)]

/-- C2: over a sibling set sorted descending by key (strictly, with distinct
identifiers), a single move assigns the moved item the arithmetic midpoint of
the anchor key and the key of the anchor's neighbor on the requested side; with
no neighbor on that side the new key is the anchor key plus 1000 (before) or
minus 1000 (after); and the single update leaves every other sibling unchanged. -/
theorem moveOne_midpoint_or_step (issues : List Sib) (issueId anchorId : String)
    (k : Nat) (hk : k < issues.length)
    (hsorted : List.Pairwise (fun a b => b.sortOrder < a.sortOrder) issues)
    (hnodup : (issues.map (fun s => s.identifier)).Nodup)
    (hanchor : (issues.get ⟨k, hk⟩).identifier = strToUpper anchorId)
    (hmoved : ∃ m ∈ issues, m.identifier = strToUpper issueId) :
    (k = 0 → moveOneNewKey issues issueId anchorId true
        = some ((issues.get ⟨k, hk⟩).sortOrder + 1000))
    ∧ (∀ prev, k ≠ 0 → issues.get? (k - 1) = some prev →
        moveOneNewKey issues issueId anchorId true
          = some (((issues.get ⟨k, hk⟩).sortOrder + prev.sortOrder) / 2))
    ∧ (issues.get? (k + 1) = none → moveOneNewKey issues issueId anchorId false
        = some ((issues.get ⟨k, hk⟩).sortOrder - 1000))
    ∧ (∀ next, issues.get? (k + 1) = some next →
        moveOneNewKey issues issueId anchorId false
          = some (((issues.get ⟨k, hk⟩).sortOrder + next.sortOrder) / 2))
    ∧ (∀ b result, applyMoveOne issues issueId anchorId b = some result →
        ∀ s ∈ issues, ¬ s.identifier = strToUpper issueId → s ∈ result) := by
  have hsorted_weak : List.Pairwise (fun a b : Sib => b.sortOrder ≤ a.sortOrder) issues :=
    hsorted.imp (fun h => le_of_lt h)
  have hsort_eq : sortSibsDesc issues = issues :=
    List.Sorted.insertionSort_eq hsorted_weak
  have hfa : issues.find? (fun i => i.identifier == strToUpper anchorId)
      = some (issues.get ⟨k, hk⟩) :=
    find?_eq_get_of_nodup issues k hk _ hanchor hnodup
  obtain ⟨m, hm, hmid⟩ := hmoved
  obtain ⟨w, hw⟩ : ∃ w, issues.find? (fun i => i.identifier == strToUpper issueId) = some w := by
    apply Option.isSome_iff_exists.mp
    rw [List.find?_isSome]
    exact ⟨m, hm, by simp [hmid]⟩
  have hidx : issues.findIdx (fun i => i.identifier == (issues.get ⟨k, hk⟩).identifier) = k :=
    findIdx_eq_of_nodup issues k hk hnodup
  refine ⟨?_, ?_, ?_, ?_, ?_⟩
  · intro hk0
    subst hk0
    simp only [moveOneNewKey, hsort_eq, hw, hfa, hidx]
    simp
  · intro prev hkne hprev
    simp only [moveOneNewKey, hsort_eq, hw, hfa, hidx, if_neg hkne, hprev]
    simp
  · intro hnone
    simp only [moveOneNewKey, hsort_eq, hw, hfa, hidx, hnone]
    simp
  · intro next hnext
    simp only [moveOneNewKey, hsort_eq, hw, hfa, hidx, hnext]
    simp
  · intro b result happ s hs hsid
    cases hmk : moveOneNewKey issues issueId anchorId b with
    | none => simp [applyMoveOne, hmk] at happ
    | some newKey =>
      simp only [applyMoveOne, hmk, Option.some.injEq] at happ
      subst happ
      have hfix : (if s.identifier == strToUpper issueId then
          { s with sortOrder := newKey } else s) = s := by
        simp [hsid]
      rw [← hfix]
      exact List.mem_map_of_mem _ hs

/-- Witness for C2 on a concrete three-sibling set. -/
theorem moveOne_midpoint_or_step_witness :
    moveOneNewKey [⟨"A", 3000⟩, ⟨"B", 2000⟩, ⟨"C", 1000⟩] "c" "b" true = some 2500
    ∧ moveOneNewKey [⟨"A", 3000⟩, ⟨"B", 2000⟩, ⟨"C", 1000⟩] "c" "b" false = some 1500 := by
  have h := moveOne_midpoint_or_step [⟨"A", 3000⟩, ⟨"B", 2000⟩, ⟨"C", 1000⟩] "c" "b" 1
    (by decide) (by decide) (by decide) (by decide)
    ⟨⟨"C", 1000⟩, by decide, by decide⟩
  constructor
  · have h2 := h.2.1 ⟨"A", 3000⟩ (by decide) rfl
    rw [h2]
    norm_num
  · have h4 := h.2.2.2.1 ⟨"C", 1000⟩ rfl
    rw [h4]
    norm_num

/-- `Math.max(...allIssues.map(i => i.sortOrder || 0))` over a nonempty sibling set. -/
def maxKey : List Sib → ℚ
  | [] => 0
  | h :: t => t.foldl (fun m s => max m s.sortOrder) h.sortOrder

/-- The `orderedIssues` resolution loop of `cmdIssuesReorder`:
`allIssues.find(i => i.identifier === id.toUpperCase())` per argument, failing on
the first unmatched identifier. -/
def resolveTargets (allIssues : List Sib) : List String → Option (List Sib)
  | [] => some []
  | id :: rest =>
    match allIssues.find? (fun i => i.identifier == strToUpper id) with
    | none => none
    | some m =>
      match resolveTargets allIssues rest with
      | none => none
      | some ms => some (m :: ms)

/-- The sort keys assigned by `cmdIssuesReorder`: the i-th resolved target gets
`baseSort - i * 1000`. -/
def reorderAssignments (targets : List Sib) (baseSort : ℚ) : List (String × ℚ) :=
  targets.enum.map (fun p => (p.2.identifier, baseSort - p.1 * 1000))

/-- One `issueUpdate({sortOrder})` mutation applied to one remote sibling. -/
def assignStep (s : Sib) (p : String × ℚ) : Sib :=
  if s.identifier == p.1 then { s with sortOrder := p.2 } else s

/-- All reorder mutations applied to the remote sibling set. -/
def applyAssignments (issues : List Sib) (assigns : List (String × ℚ)) : List Sib :=
  assigns.foldl (fun st p => st.map (fun s => assignStep s p)) issues

/-- `cmdIssuesReorder(args)`: fewer than two ids fail, unmatched ids fail, else
every listed target gets a new descending key starting from
`max(existingKeys) + 1000`. -/
def reorderAll (allIssues : List Sib) (args : List String) : Option (List Sib) :=
  if args.length < 2 then none
  else match resolveTargets allIssues args with
    | none => none
    | some targets =>
      some (applyAssignments allIssues (reorderAssignments targets (maxKey allIssues + 1000)))

/-- The stored key of the sibling with the given identifier. -/
def sibKey (l : List Sib) (id : String) : Option ℚ :=
  (l.find? (fun s => s.identifier == id)).map (fun s => s.sortOrder)

/-- Reading the listed targets back, sorted descending by their stored keys. -/
def readBackTargets (issues : List Sib) (args : List String) : List Sib :=
  sortSibsDesc (issues.filter (fun s => (args.map strToUpper).contains s.identifier))

/-- The cumulative per-element effect of all reorder mutations. -/
def elemUpdate (assigns : List (String × ℚ)) (s : Sib) : Sib :=
  assigns.foldl assignStep s

lemma applyAssignments_eq_map (assigns : List (String × ℚ)) (issues : List Sib) :
    applyAssignments issues assigns = issues.map (elemUpdate assigns) := by
  induction assigns generalizing issues with
  | nil =>
    have h : elemUpdate ([] : List (String × ℚ)) = fun s => s := funext (fun s => rfl)
    simp [applyAssignments, h]
  | cons p ps ih =>
    rw [applyAssignments, List.foldl_cons, ← applyAssignments, ih, List.map_map]
    rfl

lemma elemUpdate_identifier (assigns : List (String × ℚ)) (s : Sib) :
    (elemUpdate assigns s).identifier = s.identifier := by
  induction assigns generalizing s with
  | nil => rfl
  | cons p ps ih =>
    rw [elemUpdate, List.foldl_cons, ← elemUpdate, ih]
    unfold assignStep
    split <;> rfl

lemma elemUpdate_no_match (assigns : List (String × ℚ)) (s : Sib)
    (h : ∀ p ∈ assigns, p.1 ≠ s.identifier) : elemUpdate assigns s = s := by
  induction assigns with
  | nil => rfl
  | cons p ps ih =>
    rw [elemUpdate, List.foldl_cons, ← elemUpdate]
    have hstep : assignStep s p = s := by
      unfold assignStep
      rw [if_neg]
      intro hcon
      have hc2 : s.identifier = p.1 := by simpa using hcon
      exact h p (List.mem_cons_self p ps) hc2.symm
    rw [hstep]
    exact ih (fun q hq => h q (List.mem_cons_of_mem p hq))

lemma elemUpdate_single_match (assigns : List (String × ℚ)) (s : Sib) (i : Nat)
    (hi : i < assigns.length)
    (hmatch : (assigns.get ⟨i, hi⟩).1 = s.identifier)
    (hothers : ∀ j (hj : j < assigns.length), j ≠ i → (assigns.get ⟨j, hj⟩).1 ≠ s.identifier) :
    elemUpdate assigns s = { s with sortOrder := (assigns.get ⟨i, hi⟩).2 } := by
  induction assigns generalizing s i with
  | nil => exact absurd hi (by simp)
  | cons p ps ih =>
    cases i with
    | zero =>
      rw [elemUpdate, List.foldl_cons, ← elemUpdate]
      have hm0 : p.1 = s.identifier := hmatch
      have hstep : assignStep s p = { s with sortOrder := p.2 } := by
        unfold assignStep
        rw [if_pos (by simp [hm0])]
      rw [hstep]
      have hrest : elemUpdate ps { s with sortOrder := p.2 } = { s with sortOrder := p.2 } := by
        apply elemUpdate_no_match
        intro q hq
        obtain ⟨⟨j, hj⟩, hjq⟩ := List.mem_iff_get.mp hq
        have hj1 : j + 1 < (p :: ps).length := by simpa using hj
        have hne := hothers (j + 1) hj1 (by omega)
        have hgj : (p :: ps).get ⟨j + 1, hj1⟩ = ps.get ⟨j, hj⟩ := rfl
        rw [hgj, hjq] at hne
        exact hne
      rw [hrest]
      rfl
    | succ i2 =>
      rw [elemUpdate, List.foldl_cons, ← elemUpdate]
      have hstep : assignStep s p = s := by
        unfold assignStep
        rw [if_neg]
        intro hcon
        have hc2 : s.identifier = p.1 := by simpa using hcon
        exact hothers 0 (by simp) (by omega) hc2.symm
      rw [hstep]
      have hi2 : i2 < ps.length := by simpa using hi
      refine ih s i2 hi2 hmatch ?_
      intro j hj hne
      have hj1 : j + 1 < (p :: ps).length := by simpa using hj
      exact hothers (j + 1) hj1 (by omega)

lemma find?_map_id_preserving (l : List Sib) (f : Sib → Sib)
    (hf : ∀ s, (f s).identifier = s.identifier) (x : String) :
    (l.map f).find? (fun s => s.identifier == x) = (l.find? (fun s => s.identifier == x)).map f := by
  induction l with
  | nil => rfl
  | cons a t ih =>
    rw [List.map_cons, List.find?_cons, List.find?_cons]
    by_cases h : (a.identifier == x) = true
    · simp [hf, h]
    · simp [hf, h, ih]

lemma foldl_max_init_le (t : List Sib) (init : ℚ) :
    init ≤ t.foldl (fun m s => max m s.sortOrder) init := by
  induction t generalizing init with
  | nil => exact le_refl _
  | cons a t2 ih => exact le_trans (le_max_left _ _) (ih (max init a.sortOrder))

lemma foldl_max_mem_le (t : List Sib) (init : ℚ) (s : Sib) (hs : s ∈ t) :
    s.sortOrder ≤ t.foldl (fun m s => max m s.sortOrder) init := by
  induction t generalizing init with
  | nil => cases hs
  | cons a t2 ih =>
    rcases List.mem_cons.mp hs with heq | hs2
    · subst heq
      exact le_trans (le_max_right _ _) (foldl_max_init_le t2 _)
    · exact ih _ hs2

lemma le_maxKey (l : List Sib) (s : Sib) (hs : s ∈ l) : s.sortOrder ≤ maxKey l := by
  cases l with
  | nil => cases hs
  | cons h t =>
    rcases List.mem_cons.mp hs with heq | hs2
    · subst heq
      exact foldl_max_init_le t _
    · exact foldl_max_mem_le t _ s hs2

lemma foldl_max_le_bound (t : List Sib) (init B : ℚ) (hinit : init ≤ B)
    (hall : ∀ s ∈ t, s.sortOrder ≤ B) :
    t.foldl (fun m s => max m s.sortOrder) init ≤ B := by
  induction t generalizing init with
  | nil => exact hinit
  | cons a t2 ih =>
    exact ih _ (max_le hinit (hall a (List.mem_cons_self a t2)))
      (fun s hs => hall s (List.mem_cons_of_mem _ hs))

lemma maxKey_le_bound (l : List Sib) (B : ℚ) (hne : l ≠ [])
    (hall : ∀ s ∈ l, s.sortOrder ≤ B) : maxKey l ≤ B := by
  cases l with
  | nil => exact absurd rfl hne
  | cons h t =>
    exact foldl_max_le_bound t _ B (hall h (List.mem_cons_self h t))
      (fun s hs => hall s (List.mem_cons_of_mem _ hs))

lemma maxKey_eq_of (l : List Sib) (B : ℚ) (hne : l ≠ [])
    (hall : ∀ s ∈ l, s.sortOrder ≤ B) (hmem : ∃ s ∈ l, s.sortOrder = B) :
    maxKey l = B := by
  obtain ⟨s, hs, hsb⟩ := hmem
  exact le_antisymm (maxKey_le_bound l B hne hall) (hsb ▸ le_maxKey l s hs)

lemma resolveTargets_spec (allIssues : List Sib) (args : List String)
    (h : ∀ a ∈ args, ∃ m ∈ allIssues, m.identifier = strToUpper a) :
    ∃ targets, resolveTargets allIssues args = some targets
      ∧ targets.length = args.length
      ∧ (∀ i (hi : i < args.length) (hti : i < targets.length),
          (targets.get ⟨i, hti⟩).identifier = strToUpper (args.get ⟨i, hi⟩)
          ∧ targets.get ⟨i, hti⟩ ∈ allIssues) := by
  induction args with
  | nil =>
    refine ⟨[], rfl, rfl, ?_⟩
    intro i hi
    exact absurd hi (by simp)
  | cons a rest ih =>
    obtain ⟨m0, hm0, hid0⟩ := h a (List.mem_cons_self a rest)
    obtain ⟨w, hw⟩ : ∃ w, allIssues.find? (fun i => i.identifier == strToUpper a) = some w := by
      apply Option.isSome_iff_exists.mp
      rw [List.find?_isSome]
      exact ⟨m0, hm0, by simp [hid0]⟩
    have hwid : w.identifier = strToUpper a := by
      have := List.find?_some hw
      simpa using this
    have hwmem : w ∈ allIssues := List.mem_of_find?_eq_some hw
    obtain ⟨ts, hts, htlen, htp⟩ := ih (fun b hb => h b (List.mem_cons_of_mem _ hb))
    refine ⟨w :: ts, ?_, by simp [htlen], ?_⟩
    · rw [resolveTargets, hw, hts]
    · intro i hi hti
      cases i with
      | zero => exact ⟨hwid, hwmem⟩
      | succ i2 =>
        have hi2 : i2 < rest.length := by simpa using hi
        have hti2 : i2 < ts.length := by simpa using hti
        exact htp i2 hi2 hti2

lemma reorderAssignments_length (targets : List Sib) (base : ℚ) :
    (reorderAssignments targets base).length = targets.length := by
  simp [reorderAssignments]

lemma reorderAssignments_get (targets : List Sib) (base : ℚ) (i : Nat)
    (hi : i < targets.length)
    (hia : i < (reorderAssignments targets base).length) :
    (reorderAssignments targets base).get ⟨i, hia⟩
      = ((targets.get ⟨i, hi⟩).identifier, base - i * 1000) := by
  simp [reorderAssignments, List.get_eq_getElem]

lemma elemUpdate_key_cases (assigns : List (String × ℚ)) (s : Sib) :
    (elemUpdate assigns s).sortOrder = s.sortOrder
      ∨ (elemUpdate assigns s).sortOrder ∈ assigns.map (fun p => p.2) := by
  induction assigns generalizing s with
  | nil => exact Or.inl rfl
  | cons p ps ih =>
    rw [elemUpdate, List.foldl_cons, ← elemUpdate]
    unfold assignStep
    split
    · rcases ih { s with sortOrder := p.2 } with h | h
      · exact Or.inr (by simp [h])
      · exact Or.inr (List.mem_cons_of_mem _ h)
    · rcases ih s with h | h
      · exact Or.inl h
      · exact Or.inr (List.mem_cons_of_mem _ h)

lemma find?_eq_of_mem_nodup (l : List Sib)
    (hnodup : (l.map (fun s => s.identifier)).Nodup) (s : Sib) (hs : s ∈ l) :
    l.find? (fun t => t.identifier == s.identifier) = some s := by
  obtain ⟨⟨k, hk⟩, hks⟩ := List.mem_iff_get.mp hs
  have h := find?_eq_get_of_nodup l k hk s.identifier (by rw [hks]) hnodup
  rw [hks] at h
  exact h

lemma perm_sorted_strict_unique {l1 l2 : List Sib} (hp : l1.Perm l2)
    (h1 : List.Pairwise (fun a b => b.sortOrder < a.sortOrder) l1)
    (h2 : List.Pairwise (fun a b => b.sortOrder < a.sortOrder) l2) : l1 = l2 := by
  induction l1 generalizing l2 with
  | nil => exact hp.nil_eq
  | cons a t1 ih =>
    cases l2 with
    | nil =>
      have hlen := hp.length_eq
      simp at hlen
    | cons b t2 =>
      have hab : a = b := by
        by_contra hne
        have ha2 : a ∈ b :: t2 := hp.mem_iff.mp (List.mem_cons_self a t1)
        have hb1 : b ∈ a :: t1 := hp.mem_iff.mpr (List.mem_cons_self b t2)
        have ha2x : a ∈ t2 := by
          rcases List.mem_cons.mp ha2 with hx | hx
          · exact absurd hx hne
          · exact hx
        have hb1x : b ∈ t1 := by
          rcases List.mem_cons.mp hb1 with hx | hx
          · exact absurd hx.symm hne
          · exact hx
        have hlt1 : b.sortOrder < a.sortOrder := (List.pairwise_cons.mp h1).1 b hb1x
        have hlt2 : a.sortOrder < b.sortOrder := (List.pairwise_cons.mp h2).1 a ha2x
        exact absurd hlt1 (not_lt.mpr (le_of_lt hlt2))
      subst hab
      rw [ih hp.cons_inv (List.pairwise_cons.mp h1).2 (List.pairwise_cons.mp h2).2]

/-- The target list the spec predicts after a reorder: the i-th listed id carries
key `base - i * 1000`. -/
def expectedTargets (args : List String) (base : ℚ) : List Sib :=
  args.enum.map (fun p => ⟨strToUpper p.2, base - p.1 * 1000⟩)

lemma expectedTargets_map_id (args : List String) (base : ℚ) :
    (expectedTargets args base).map (fun s => s.identifier) = args.map strToUpper := by
  unfold expectedTargets
  rw [List.map_map]
  have h : ((fun s : Sib => s.identifier) ∘ fun p : Nat × String =>
      (⟨strToUpper p.2, base - p.1 * 1000⟩ : Sib)) = fun p => strToUpper p.2 := rfl
  rw [h]
  have h2 : (fun p : Nat × String => strToUpper p.2) = strToUpper ∘ Prod.snd := rfl
  rw [h2, ← List.map_map, List.enum_map_snd]

lemma expectedTargets_length (args : List String) (base : ℚ) :
    (expectedTargets args base).length = args.length := by
  simp [expectedTargets]

lemma expectedTargets_get (args : List String) (base : ℚ) (i : Nat)
    (hi : i < args.length) (hie : i < (expectedTargets args base).length) :
    (expectedTargets args base).get ⟨i, hie⟩
      = ⟨strToUpper (args.get ⟨i, hi⟩), base - i * 1000⟩ := by
  simp [expectedTargets, List.get_eq_getElem]

lemma expectedTargets_strict (args : List String) (base : ℚ) :
    List.Pairwise (fun a b => b.sortOrder < a.sortOrder) (expectedTargets args base) := by
  rw [List.pairwise_iff_get]
  intro i j hij
  have hlen := expectedTargets_length args base
  have hi : (i : Nat) < args.length := by omega
  have hj : (j : Nat) < args.length := by omega
  rw [expectedTargets_get args base i hi i.isLt, expectedTargets_get args base j hj j.isLt]
  have hcast : ((i : Nat) : ℚ) < ((j : Nat) : ℚ) := by
    exact_mod_cast hij
  simp only []
  linarith

lemma reorderAll_spec (allIssues : List Sib) (args : List String)
    (hne : allIssues ≠ [])
    (hlen : 2 ≤ args.length)
    (hfound : ∀ a ∈ args, ∃ m ∈ allIssues, m.identifier = strToUpper a)
    (hargsnodup : (args.map strToUpper).Nodup)
    (hidnodup : (allIssues.map (fun s => s.identifier)).Nodup) :
    ∃ st1, reorderAll allIssues args = some st1
      ∧ st1.map (fun s => s.identifier) = allIssues.map (fun s => s.identifier)
      ∧ (∀ i (hi : i < args.length),
          sibKey st1 (strToUpper (args.get ⟨i, hi⟩))
            = some (maxKey allIssues + 1000 - i * 1000))
      ∧ maxKey st1 = maxKey allIssues + 1000
      ∧ readBackTargets st1 args = expectedTargets args (maxKey allIssues + 1000) := by
  obtain ⟨targets, htres, htlen, htp⟩ := resolveTargets_spec allIssues args hfound
  refine ⟨applyAssignments allIssues (reorderAssignments targets (maxKey allIssues + 1000)),
    ?_, ?_, ?_, ?_, ?_⟩
  · unfold reorderAll
    rw [if_neg (by omega), htres]
  all_goals {
    set base := maxKey allIssues + 1000 with hbase
    set assigns := reorderAssignments targets base with hassigns
    set st1 := applyAssignments allIssues assigns with hst1def
    have hst1map : st1 = allIssues.map (elemUpdate assigns) :=
      applyAssignments_eq_map assigns allIssues
    have halen : assigns.length = args.length := by
      rw [hassigns, reorderAssignments_length, htlen]
    have haget : ∀ i (hi : i < args.length) (hia : i < assigns.length),
        assigns.get ⟨i, hia⟩ = (strToUpper (args.get ⟨i, hi⟩), base - i * 1000) := by
      intro i hi hia
      have hti : i < targets.length := by omega
      have h := reorderAssignments_get targets base i hti hia
      rw [(htp i hi hti).1] at h
      exact h
    have hupper_inj : ∀ i j (hi : i < args.length) (hj : j < args.length),
        strToUpper (args.get ⟨i, hi⟩) = strToUpper (args.get ⟨j, hj⟩) → i = j := by
      intro i j hi hj heq
      have hi2 : i < (args.map strToUpper).length := by simpa using hi
      have hj2 : j < (args.map strToUpper).length := by simpa using hj
      have hg : (args.map strToUpper)[i] = (args.map strToUpper)[j] := by
        rw [List.getElem_map, List.getElem_map]
        exact heq
      exact (List.Nodup.getElem_inj_iff hargsnodup).mp hg
    have hidmap : st1.map (fun s => s.identifier) = allIssues.map (fun s => s.identifier) := by
      rw [hst1map, List.map_map]
      exact List.map_congr_left (fun m _ => elemUpdate_identifier assigns m)
    have hfind1 : ∀ i (hi : i < args.length),
        st1.find? (fun s => s.identifier == strToUpper (args.get ⟨i, hi⟩))
          = some ⟨strToUpper (args.get ⟨i, hi⟩), base - i * 1000⟩ := by
      intro i hi
      obtain ⟨m, hm, hmid⟩ := hfound (args.get ⟨i, hi⟩) (args.get_mem i hi)
      have hfindAll : allIssues.find? (fun s => s.identifier == strToUpper (args.get ⟨i, hi⟩))
          = some m := by
        have := find?_eq_of_mem_nodup allIssues hidnodup m hm
        rwa [hmid] at this
      have hupd : elemUpdate assigns m = ⟨strToUpper (args.get ⟨i, hi⟩), base - i * 1000⟩ := by
        have hia : i < assigns.length := by omega
        have hsingle := elemUpdate_single_match assigns m i hia
          (by rw [haget i hi hia]; exact hmid.symm)
          (by
            intro j hj hne2
            have hj2 : j < args.length := by omega
            rw [haget j hj2 hj]
            simp only []
            intro hcon
            rw [hmid] at hcon
            exact hne2 (hupper_inj j i hj2 hi hcon))
        rw [hsingle, haget i hi hia]
        cases m with
        | mk mid mkey =>
          simp only [] at hmid
          rw [hmid]
      rw [hst1map, find?_map_id_preserving allIssues (elemUpdate assigns)
        (elemUpdate_identifier assigns) _, hfindAll]
      simp [hupd]
    have hkeys : ∀ i (hi : i < args.length),
        sibKey st1 (strToUpper (args.get ⟨i, hi⟩)) = some (base - i * 1000) := by
      intro i hi
      rw [sibKey, hfind1 i hi]
      rfl
    have hbound : ∀ s ∈ st1, s.sortOrder ≤ base := by
      intro s hs
      rw [hst1map] at hs
      obtain ⟨m, hm, hms⟩ := List.mem_map.mp hs
      rcases elemUpdate_key_cases assigns m with hcase | hcase
      · rw [← hms]
        rw [hcase]
        have := le_maxKey allIssues m hm
        rw [hbase]
        linarith
      · rw [← hms]
        obtain ⟨q, hq, hqv⟩ := List.mem_map.mp hcase
        obtain ⟨⟨j, hj⟩, hjq⟩ := List.mem_iff_get.mp hq
        have hj2 : j < args.length := by omega
        rw [← hqv, ← hjq, haget j hj2 hj]
        simp only []
        have : (0 : ℚ) ≤ (j : ℚ) * 1000 := by positivity
        linarith
    have hne1 : st1 ≠ [] := by
      rw [hst1map]
      intro hcon
      exact hne (List.map_eq_nil_iff.mp hcon)
    have hmax1 : maxKey st1 = base := by
      refine maxKey_eq_of st1 base hne1 hbound ?_
      have h0 : 0 < args.length := by omega
      have hf0 := hfind1 0 h0
      refine ⟨⟨strToUpper (args.get ⟨0, h0⟩), base - 0 * 1000⟩,
        List.mem_of_find?_eq_some hf0, ?_⟩
      simp
    have hidnodup1 : (st1.map (fun s => s.identifier)).Nodup := by
      rw [hidmap]
      exact hidnodup
    have hreadback : readBackTargets st1 args = expectedTargets args base := by
      set E := expectedTargets args base with hEdef
      set filtered := st1.filter (fun s => (args.map strToUpper).contains s.identifier)
        with hfdef
      have hmemiff : ∀ s, s ∈ filtered ↔ s ∈ E := by
        intro s
        constructor
        · intro hsf
          rw [hfdef, List.mem_filter] at hsf
          obtain ⟨hs1, hsc⟩ := hsf
          have hsid : s.identifier ∈ args.map strToUpper := by simpa using hsc
          obtain ⟨⟨i, hi2⟩, hgi⟩ := List.mem_iff_get.mp hsid
          have hi : i < args.length := by simpa using hi2
          have hsidv : s.identifier = strToUpper (args.get ⟨i, hi⟩) := by
            rw [← hgi]
            rw [List.get_eq_getElem, List.get_eq_getElem, List.getElem_map]
          have hfs := find?_eq_of_mem_nodup st1 hidnodup1 s hs1
          rw [hsidv] at hfs
          rw [hfind1 i hi] at hfs
          have hs_eq := Option.some.inj hfs
          rw [← hs_eq]
          have hie : i < E.length := by
            rw [hEdef, expectedTargets_length]
            exact hi
          rw [show (⟨strToUpper (args.get ⟨i, hi⟩), base - i * 1000⟩ : Sib)
              = E.get ⟨i, hie⟩ from (expectedTargets_get args base i hi hie).symm]
          exact E.get_mem i hie
        · intro hsE
          obtain ⟨⟨i, hie⟩, hgi⟩ := List.mem_iff_get.mp hsE
          have hi : i < args.length := by
            have := hie
            rw [hEdef, expectedTargets_length] at this
            exact this
          have hsv : s = ⟨strToUpper (args.get ⟨i, hi⟩), base - i * 1000⟩ := by
            rw [← hgi]
            exact expectedTargets_get args base i hi hie
          rw [hfdef, List.mem_filter]
          constructor
          · rw [hsv]
            exact List.mem_of_find?_eq_some (hfind1 i hi)
          · rw [hsv]
            simp only []
            have : strToUpper (args.get ⟨i, hi⟩) ∈ args.map strToUpper :=
              List.mem_map_of_mem strToUpper (args.get_mem i hi)
            simpa using this
      have hEnodup : E.Nodup := by
        apply List.Nodup.of_map (fun s : Sib => s.identifier)
        rw [hEdef, expectedTargets_map_id]
        exact hargsnodup
      have hfnodup : filtered.Nodup := by
        apply List.Nodup.filter
        exact List.Nodup.of_map (fun s : Sib => s.identifier) hidnodup1
      have hperm : filtered.Perm E := (List.perm_ext_iff_of_nodup hfnodup hEnodup).mpr hmemiff
      haveI : IsTotal Sib (fun a b => b.sortOrder ≤ a.sortOrder) :=
        ⟨fun a b => le_total b.sortOrder a.sortOrder⟩
      haveI : IsTrans Sib (fun a b => b.sortOrder ≤ a.sortOrder) :=
        ⟨fun _ _ _ h1 h2 => le_trans h2 h1⟩
      have hperm2 : (sortSibsDesc filtered).Perm E :=
        (List.perm_insertionSort _ filtered).trans hperm
      have hweak : List.Pairwise (fun a b : Sib => b.sortOrder ≤ a.sortOrder)
          (sortSibsDesc filtered) :=
        List.sorted_insertionSort _ filtered
      have hEne : List.Pairwise (fun a b : Sib => a.sortOrder ≠ b.sortOrder) E :=
        (expectedTargets_strict args base).imp (fun h => (ne_of_lt h).symm)
      have hsne : List.Pairwise (fun a b : Sib => a.sortOrder ≠ b.sortOrder)
          (sortSibsDesc filtered) :=
        (List.Perm.pairwise_iff (fun h => h.symm) hperm2).mpr hEne
      have hstrict : List.Pairwise (fun a b : Sib => b.sortOrder < a.sortOrder)
          (sortSibsDesc filtered) :=
        (hweak.and hsne).imp (fun h => lt_of_le_of_ne h.1 h.2.symm)
      have := perm_sorted_strict_unique hperm2 hstrict (expectedTargets_strict args base)
      rw [readBackTargets]
      exact this
    first
      | exact hidmap
      | exact hkeys
      | exact hmax1
      | exact hreadback
  }

/-- C3: a full reorder assigns the i-th listed target the key
`max(existing keys) + 1000 - i * 1000`, strictly decreasing in list position;
reading the targets back sorted descending by key yields exactly the argument
order; and running the same reorder again yields the same read-back order while
every assigned numeric key differs from the first run. -/
theorem reorderAll_descending_and_readback_stable (allIssues : List Sib) (args : List String)
    (hne : allIssues ≠ [])
    (hlen : 2 ≤ args.length)
    (hfound : ∀ a ∈ args, ∃ m ∈ allIssues, m.identifier = strToUpper a)
    (hargsnodup : (args.map strToUpper).Nodup)
    (hidnodup : (allIssues.map (fun s => s.identifier)).Nodup) :
    ∃ st1 st2,
      reorderAll allIssues args = some st1
      ∧ reorderAll st1 args = some st2
      ∧ (∀ i (hi : i < args.length),
          sibKey st1 (strToUpper (args.get ⟨i, hi⟩))
            = some (maxKey allIssues + 1000 - i * 1000))
      ∧ (∀ i j (hi : i < args.length) (hj : j < args.length), i < j →
          ∀ ki kj, sibKey st1 (strToUpper (args.get ⟨i, hi⟩)) = some ki →
            sibKey st1 (strToUpper (args.get ⟨j, hj⟩)) = some kj → kj < ki)
      ∧ (readBackTargets st1 args).map (fun s => s.identifier) = args.map strToUpper
      ∧ (readBackTargets st2 args).map (fun s => s.identifier) = args.map strToUpper
      ∧ (∀ i (hi : i < args.length),
          sibKey st2 (strToUpper (args.get ⟨i, hi⟩))
            ≠ sibKey st1 (strToUpper (args.get ⟨i, hi⟩))) := by
  obtain ⟨st1, h1run, h1id, h1keys, h1max, h1rb⟩ :=
    reorderAll_spec allIssues args hne hlen hfound hargsnodup hidnodup
  have hne2 : st1 ≠ [] := by
    intro hcon
    apply hne
    have h := h1id
    rw [hcon] at h
    exact List.map_eq_nil_iff.mp h.symm
  have hfound2 : ∀ a ∈ args, ∃ m ∈ st1, m.identifier = strToUpper a := by
    intro a ha
    obtain ⟨m, hm, hmid⟩ := hfound a ha
    have hmm : strToUpper a ∈ st1.map (fun s => s.identifier) := by
      rw [h1id, ← hmid]
      exact List.mem_map_of_mem _ hm
    obtain ⟨m2, hm2, hm2id⟩ := List.mem_map.mp hmm
    exact ⟨m2, hm2, hm2id⟩
  have hidnodup2 : (st1.map (fun s => s.identifier)).Nodup := by
    rw [h1id]
    exact hidnodup
  obtain ⟨st2, h2run, h2id, h2keys, h2max, h2rb⟩ :=
    reorderAll_spec st1 args hne2 hlen hfound2 hargsnodup hidnodup2
  refine ⟨st1, st2, h1run, h2run, h1keys, ?_, ?_, ?_, ?_⟩
  · intro i j hi hj hij ki kj hki hkj
    rw [h1keys i hi] at hki
    rw [h1keys j hj] at hkj
    have hki2 := Option.some.inj hki
    have hkj2 := Option.some.inj hkj
    rw [← hki2, ← hkj2]
    have hc : (i : ℚ) < j := by exact_mod_cast hij
    linarith
  · rw [h1rb, expectedTargets_map_id]
  · rw [h2rb, expectedTargets_map_id]
  · intro i hi
    rw [h1keys i hi, h2keys i hi, h1max]
    intro hcon
    have := Option.some.inj hcon
    linarith

/-- Witness for C3 on a concrete three-sibling set reordered as `[B, A]`. -/
theorem reorderAll_descending_and_readback_stable_witness :
    ∃ st1 st2,
      reorderAll [⟨"A", 1000⟩, ⟨"B", 2000⟩, ⟨"C", 500⟩] ["b", "a"] = some st1
      ∧ reorderAll st1 ["b", "a"] = some st2
      ∧ (∀ i (hi : i < (["b", "a"] : List String).length),
          sibKey st1 (strToUpper ((["b", "a"] : List String).get ⟨i, hi⟩))
            = some (maxKey [⟨"A", 1000⟩, ⟨"B", 2000⟩, ⟨"C", 500⟩] + 1000 - i * 1000))
      ∧ (∀ i j (hi : i < (["b", "a"] : List String).length)
            (hj : j < (["b", "a"] : List String).length), i < j →
          ∀ ki kj, sibKey st1 (strToUpper ((["b", "a"] : List String).get ⟨i, hi⟩)) = some ki →
            sibKey st1 (strToUpper ((["b", "a"] : List String).get ⟨j, hj⟩)) = some kj → kj < ki)
      ∧ (readBackTargets st1 ["b", "a"]).map (fun s => s.identifier)
          = (["b", "a"] : List String).map strToUpper
      ∧ (readBackTargets st2 ["b", "a"]).map (fun s => s.identifier)
          = (["b", "a"] : List String).map strToUpper
      ∧ (∀ i (hi : i < (["b", "a"] : List String).length),
          sibKey st2 (strToUpper ((["b", "a"] : List String).get ⟨i, hi⟩))
            ≠ sibKey st1 (strToUpper ((["b", "a"] : List String).get ⟨i, hi⟩))) :=
  reorderAll_descending_and_readback_stable [⟨"A", 1000⟩, ⟨"B", 2000⟩, ⟨"C", 500⟩] ["b", "a"]
    (by decide) (by decide) (by decide) (by decide) (by decide)

/-- The JS whitespace-run splitter (`split` with a one-or-more-whitespace
pattern): cut at every maximal whitespace run, keeping the possibly empty
segments before and after; the flag tracks being inside a run. -/
def splitWsGo : Bool → List Char → List Char → List String
  | false, [], acc => [⟨acc.reverse⟩]
  | false, c :: rest, acc =>
    if c.isWhitespace then (⟨acc.reverse⟩ : String) :: splitWsGo true rest []
    else splitWsGo false rest (c :: acc)
  | true, [], _ => [""]
  | true, c :: rest, _ =>
    if c.isWhitespace then splitWsGo true rest []
    else splitWsGo false rest [c]

/-- The JS whitespace-run split on strings. -/
def splitWs (s : String) : List String :=
  splitWsGo false s.data []

/-- Does the char list start with the general checkbox marker `- [m] ` with
`m` one of space, `x`, `X` (the case-insensitive marker pattern)? -/
def isMarkerAt : List Char → Bool
  | '-' :: ' ' :: '[' :: m :: ']' :: ' ' :: _ => m == ' ' || m == 'x' || m == 'X'
  | _ => false

/-- Remove the first occurrence of the general checkbox marker. -/
def stripMarkerChars : List Char → List Char
  | [] => []
  | c :: rest => if isMarkerAt (c :: rest) then rest.drop 5 else c :: stripMarkerChars rest

/-- JS replace of the first general checkbox marker by the empty string. -/
def stripMarker (line : String) : String :=
  ⟨stripMarkerChars line.data⟩

/-- Does the char list start with the from-pattern of the requested direction
(`- [ ] ` to check, `- [x] ` case-insensitively to uncheck)? -/
def isFromAt (isCheck : Bool) : List Char → Bool
  | '-' :: ' ' :: '[' :: m :: ']' :: ' ' :: _ =>
    if isCheck then m == ' ' else m == 'x' || m == 'X'
  | _ => false

/-- The from-pattern `.test(line)` of the requested direction. -/
def hasFrom (isCheck : Bool) : List Char → Bool
  | [] => false
  | c :: rest => isFromAt isCheck (c :: rest) || hasFrom isCheck rest

/-- `fromPattern.test(line)` on strings. -/
def testFrom (isCheck : Bool) (line : String) : Bool :=
  hasFrom isCheck line.data

/-- Replace the first occurrence of the from-pattern with the target marker. -/
def replaceFromChars (isCheck : Bool) (toMark : List Char) : List Char → List Char
  | [] => []
  | c :: rest =>
    if isFromAt isCheck (c :: rest) then toMark ++ rest.drop 5
    else c :: replaceFromChars isCheck toMark rest

/-- `line.replace(fromPattern, toMark)`. -/
def replaceMarker (isCheck : Bool) (line : String) : String :=
  ⟨replaceFromChars isCheck (if isCheck then "- [x] ".data else "- [ ] ".data) line.data⟩

/-- A candidate line's comparison text: the line with its first checkbox marker
removed, lowercased. -/
def candText (line : String) : String :=
  strToLower (stripMarker line)

/-- The non-exact score of one candidate: when one string contains the other,
`queryLower.length / Math.max(text.length, queryLower.length)`; otherwise the
word-overlap ratio. -/
def candScore (queryLower text : String) : ℚ :=
  if strIncludes text queryLower || strIncludes queryLower text then
    (queryLower.length : ℚ) / ((max text.length queryLower.length : Nat) : ℚ)
  else
    let queryWords := splitWs queryLower
    let textWords := splitWs text
    let overlap := (queryWords.filter (fun w =>
      textWords.any (fun tw => strIncludes tw w || strIncludes w tw))).length
    (overlap : ℚ) / ((max queryWords.length textWords.length : Nat) : ℚ)

/-- A candidate's score with the exact match mapped to the top element
(JS `Infinity`). -/
def candScoreFull (queryLower line : String) : WithTop ℚ :=
  if candText line = queryLower then ⊤
  else ((candScore queryLower (candText line) : ℚ) : WithTop ℚ)

/-- The best-match loop of the check and uncheck path of `cmdIssueUpdate`:
an exact text match wins immediately with an infinite score; otherwise a
candidate replaces the running best exactly when its score is strictly higher. -/
def scoreLoop (queryLower : String) :
    List (Nat × String) → Option (Nat × String) → WithTop ℚ →
      Option (Nat × String) × WithTop ℚ
  | [], best, bs => (best, bs)
  | p :: rest, best, bs =>
    if candText p.2 = queryLower then (some p, ⊤)
    else
      let sc : WithTop ℚ := ((candScore queryLower (candText p.2) : ℚ) : WithTop ℚ)
      if bs < sc then scoreLoop queryLower rest (some p) sc
      else scoreLoop queryLower rest best bs

/-- Errors of the checklist toggle path. -/
inductive CheckError where
  | noItems
  | noMatch (candidates : List String)
  deriving DecidableEq, Repr

/-- The `--check` and `--uncheck` path of `cmdIssueUpdate`: collect the checkbox
lines of the requested state, score them against the query, toggle the best
match when its score reaches 0.3, else fail listing every candidate line
(trimmed, as printed). -/
def cmdCheckToggle (isCheck : Bool) (query desc : String) : Except CheckError String :=
  let lines := jsSplit desc '\n'
  let checkboxLines := lines.enum.filter (fun p => testFrom isCheck p.2)
  if checkboxLines.isEmpty then Except.error CheckError.noItems
  else
    let queryLower := strToLower query
    let r := scoreLoop queryLower checkboxLines none 0
    match r.1 with
    | none => Except.error (CheckError.noMatch (checkboxLines.map (fun p => jsTrim p.2)))
    | some p =>
      if r.2 < ((3 / 10 : ℚ) : WithTop ℚ) then
        Except.error (CheckError.noMatch (checkboxLines.map (fun p => jsTrim p.2)))
      else
        Except.ok (joinWith "\n" (lines.set p.1 (replaceMarker isCheck p.2)))

/-- The containment score that the claim words prescribe: length of the
shorter string over length of the longer one. Declared for comparison with
`candScore`, which embeds what the code computes. -/
def specContainScore (a b : String) : ℚ :=
  ((min a.length b.length : Nat) : ℚ) / ((max a.length b.length : Nat) : ℚ)

lemma scoreLoop_some_of_some (q : String) :
    ∀ (cl : List (Nat × String)) (p0 : Nat × String) (s0 : WithTop ℚ),
      ∃ p2, (scoreLoop q cl (some p0) s0).1 = some p2
  | [], p0, _ => ⟨p0, rfl⟩
  | p :: rest, p0, s0 => by
    simp only [scoreLoop]
    by_cases hx : candText p.2 = q
    · rw [if_pos hx]
      exact ⟨p, rfl⟩
    · rw [if_neg hx]
      by_cases hlt : s0 < ((candScore q (candText p.2) : ℚ) : WithTop ℚ)
      · rw [if_pos hlt]
        exact scoreLoop_some_of_some q rest p _
      · rw [if_neg hlt]
        exact scoreLoop_some_of_some q rest p0 s0

lemma scoreLoop_none_bound (q : String) :
    ∀ (cl : List (Nat × String)) (s0 : WithTop ℚ),
      (scoreLoop q cl none s0).1 = none →
      ∀ p ∈ cl, candScoreFull q p.2 ≤ s0
  | [], _, _, p, hp => absurd hp (List.not_mem_nil p)
  | p0 :: rest, s0, hres, p, hp => by
    simp only [scoreLoop] at hres
    by_cases hx : candText p0.2 = q
    · rw [if_pos hx] at hres
      simp at hres
    · rw [if_neg hx] at hres
      by_cases hlt : s0 < ((candScore q (candText p0.2) : ℚ) : WithTop ℚ)
      · rw [if_pos hlt] at hres
        obtain ⟨p2, hp2⟩ := scoreLoop_some_of_some q rest p0
          ((candScore q (candText p0.2) : ℚ) : WithTop ℚ)
        rw [hp2] at hres
        simp at hres
      · rw [if_neg hlt] at hres
        rcases List.mem_cons.mp hp with rfl | hpm
        · simp only [candScoreFull, if_neg hx]
          exact le_of_not_lt hlt
        · exact scoreLoop_none_bound q rest s0 hres p hpm

lemma scoreLoop_mono (q : String) :
    ∀ (cl : List (Nat × String)) (b0 : Option (Nat × String)) (s0 : WithTop ℚ),
      s0 ≤ (scoreLoop q cl b0 s0).2
  | [], _, s0 => le_refl s0
  | p :: rest, b0, s0 => by
    simp only [scoreLoop]
    by_cases hx : candText p.2 = q
    · rw [if_pos hx]
      exact le_top
    · rw [if_neg hx]
      by_cases hlt : s0 < ((candScore q (candText p.2) : ℚ) : WithTop ℚ)
      · rw [if_pos hlt]
        exact le_of_lt (lt_of_lt_of_le hlt (scoreLoop_mono q rest (some p) _))
      · rw [if_neg hlt]
        exact scoreLoop_mono q rest b0 s0

lemma scoreLoop_le (q : String) :
    ∀ (cl : List (Nat × String)) (b0 : Option (Nat × String)) (s0 : WithTop ℚ),
      ∀ p ∈ cl, candScoreFull q p.2 ≤ (scoreLoop q cl b0 s0).2
  | [], _, _, p, hp => absurd hp (List.not_mem_nil p)
  | p0 :: rest, b0, s0, p, hp => by
    simp only [scoreLoop]
    by_cases hx : candText p0.2 = q
    · rw [if_pos hx]
      exact le_top
    · rw [if_neg hx]
      rcases List.mem_cons.mp hp with rfl | hpm
      · simp only [candScoreFull, if_neg hx]
        by_cases hlt : s0 < ((candScore q (candText p.2) : ℚ) : WithTop ℚ)
        · rw [if_pos hlt]
          exact scoreLoop_mono q rest (some p) _
        · rw [if_neg hlt]
          exact le_trans (le_of_not_lt hlt) (scoreLoop_mono q rest b0 s0)
      · by_cases hlt : s0 < ((candScore q (candText p0.2) : ℚ) : WithTop ℚ)
        · rw [if_pos hlt]
          exact scoreLoop_le q rest (some p0) _ p hpm
        · rw [if_neg hlt]
          exact scoreLoop_le q rest b0 s0 p hpm

lemma scoreLoop_pair (q : String) :
    ∀ (cl : List (Nat × String)) (b0 : Option (Nat × String)) (s0 : WithTop ℚ),
      scoreLoop q cl b0 s0 = (b0, s0)
      ∨ ∃ p, p ∈ cl ∧ scoreLoop q cl b0 s0 = (some p, candScoreFull q p.2)
  | [], _, _ => Or.inl rfl
  | p0 :: rest, b0, s0 => by
    simp only [scoreLoop]
    by_cases hx : candText p0.2 = q
    · rw [if_pos hx]
      refine Or.inr ⟨p0, List.mem_cons_self p0 rest, ?_⟩
      simp [candScoreFull, hx]
    · rw [if_neg hx]
      by_cases hlt : s0 < ((candScore q (candText p0.2) : ℚ) : WithTop ℚ)
      · rw [if_pos hlt]
        rcases scoreLoop_pair q rest (some p0)
            ((candScore q (candText p0.2) : ℚ) : WithTop ℚ) with h | ⟨p2, hp2, h⟩
        · refine Or.inr ⟨p0, List.mem_cons_self p0 rest, ?_⟩
          rw [h]
          simp [candScoreFull, hx]
        · exact Or.inr ⟨p2, List.mem_cons_of_mem p0 hp2, h⟩
      · rw [if_neg hlt]
        rcases scoreLoop_pair q rest b0 s0 with h | ⟨p2, hp2, h⟩
        · exact Or.inl h
        · exact Or.inr ⟨p2, List.mem_cons_of_mem p0 hp2, h⟩

lemma cmdCheckToggle_none_case (isCheck : Bool) (query desc : String)
    (cl : List (Nat × String))
    (hcl : cl = (jsSplit desc (Char.ofNat 10)).enum.filter (fun p => testFrom isCheck p.2))
    (hnb : ¬(cl.isEmpty = true))
    (h1 : (scoreLoop (strToLower query) cl none 0).1 = none) :
    cmdCheckToggle isCheck query desc
      = Except.error (CheckError.noMatch (cl.map (fun p => jsTrim p.2))) := by
  subst hcl
  simp only [cmdCheckToggle]
  rw [if_neg hnb, h1]

lemma cmdCheckToggle_some_case (isCheck : Bool) (query desc : String)
    (cl : List (Nat × String))
    (hcl : cl = (jsSplit desc (Char.ofNat 10)).enum.filter (fun p => testFrom isCheck p.2))
    (hnb : ¬(cl.isEmpty = true))
    (p : Nat × String) (s : WithTop ℚ)
    (hpair : scoreLoop (strToLower query) cl none 0 = (some p, s)) :
    cmdCheckToggle isCheck query desc =
      if s < ((3 / 10 : ℚ) : WithTop ℚ) then
        Except.error (CheckError.noMatch (cl.map (fun p => jsTrim p.2)))
      else
        Except.ok (joinWith "\n"
          ((jsSplit desc (Char.ofNat 10)).set p.1 (replaceMarker isCheck p.2))) := by
  subst hcl
  simp only [cmdCheckToggle]
  rw [if_neg hnb, hpair]

lemma coe_zero_lt_threshold : (0 : WithTop ℚ) < ((3 / 10 : ℚ) : WithTop ℚ) := by
  exact_mod_cast (by norm_num : (0 : ℚ) < 3 / 10)

lemma counterexample_candScore_eq_one :
    candScore (strToLower "please update everything carefully") (candText "- [ ] update") = 1 := by
  have hc : (strIncludes (candText "- [ ] update")
        (strToLower "please update everything carefully")
      || strIncludes (strToLower "please update everything carefully")
        (candText "- [ ] update")) = true := by decide
  have hlen1 : (strToLower "please update everything carefully").length = 34 := by decide
  have hlen2 : (candText "- [ ] update").length = 6 := by decide
  simp only [candScore]
  rw [if_pos hc, hlen1, hlen2]
  norm_num

/-- C5 counterexample: when the query strictly contains the candidate text the
code scores `queryLower.length / max(text.length, queryLower.length) = 1` and
toggles the line, while the claimed shorter-over-longer ratio is `6/34`, below
the `0.3` acceptance threshold, so the claimed scorer would have rejected. -/
theorem cmdCheckToggle_containment_score_counterexample :
    cmdCheckToggle true "please update everything carefully" "- [ ] update"
        = Except.ok "- [x] update"
    ∧ candScore (strToLower "please update everything carefully") (candText "- [ ] update") = 1
    ∧ specContainScore (strToLower "please update everything carefully") (candText "- [ ] update")
        < 3 / 10 := by
  have hsc := counterexample_candScore_eq_one
  have hlen1 : (strToLower "please update everything carefully").length = 34 := by decide
  have hlen2 : (candText "- [ ] update").length = 6 := by decide
  refine ⟨?_, hsc, ?_⟩
  · have hpair : scoreLoop (strToLower "please update everything carefully")
        [(0, "- [ ] update")] none 0
        = (some (0, "- [ ] update"), ((1 : ℚ) : WithTop ℚ)) := by
      simp only [scoreLoop]
      rw [if_neg (by decide)]
      simp only [hsc]
      rw [if_pos (by exact_mod_cast (by norm_num : (0 : ℚ) < 1))]
    have hif := cmdCheckToggle_some_case true "please update everything carefully"
        "- [ ] update" [(0, "- [ ] update")] (by decide) (by decide)
        (0, "- [ ] update") ((1 : ℚ) : WithTop ℚ) hpair
    rw [hif, if_neg (by exact_mod_cast (by norm_num : ¬((1 : ℚ) < 3 / 10)))]
    rfl
  · simp only [specContainScore]
    rw [hlen1, hlen2]
    norm_num

/-- C5 (amended): over the checkbox lines of the requested state, a candidate
scores infinitely on exact lowercased equality with its marker-stripped text;
on mutual containment it scores `queryLower.length / max(text.length,
queryLower.length)` (the shorter-over-longer ratio only when the candidate is
the longer string, and `1` whenever the query contains the candidate);
otherwise the word-overlap ratio. The command fails exactly when every
candidate scores below `0.3`, the failure lists every candidate line (trimmed),
and a success toggles a best-scoring candidate whose score is at least
`0.3`. -/
theorem cmdCheckToggle_threshold_and_candidates (isCheck : Bool) (query desc : String)
    (cl : List (Nat × String))
    (hcl : cl = (jsSplit desc (Char.ofNat 10)).enum.filter (fun p => testFrom isCheck p.2))
    (hne : cl ≠ []) :
    ((∀ p ∈ cl, candScoreFull (strToLower query) p.2 < ((3 / 10 : ℚ) : WithTop ℚ)) ↔
      cmdCheckToggle isCheck query desc
        = Except.error (CheckError.noMatch (cl.map (fun p => jsTrim p.2))))
    ∧ (∀ errL, cmdCheckToggle isCheck query desc = Except.error (CheckError.noMatch errL) →
        errL = cl.map (fun p => jsTrim p.2))
    ∧ (∀ d2, cmdCheckToggle isCheck query desc = Except.ok d2 →
        ∃ p, p ∈ cl
          ∧ ((3 / 10 : ℚ) : WithTop ℚ) ≤ candScoreFull (strToLower query) p.2
          ∧ (∀ q2 ∈ cl, candScoreFull (strToLower query) q2.2
              ≤ candScoreFull (strToLower query) p.2)
          ∧ d2 = joinWith "\n"
              ((jsSplit desc (Char.ofNat 10)).set p.1 (replaceMarker isCheck p.2))) := by
  have hnb : ¬(cl.isEmpty = true) := by
    simpa using hne
  rcases scoreLoop_pair (strToLower query) cl none 0 with hpair | ⟨p, hp, hpair⟩
  · have h1 : (scoreLoop (strToLower query) cl none 0).1 = none := by rw [hpair]
    have hE3 := cmdCheckToggle_none_case isCheck query desc cl hcl hnb h1
    have hbound := scoreLoop_none_bound (strToLower query) cl 0 h1
    refine ⟨⟨fun _ => hE3, fun _ p2 hp2 => ?_⟩, fun errL h => ?_, fun d2 h => ?_⟩
    · exact lt_of_le_of_lt (hbound p2 hp2) coe_zero_lt_threshold
    · rw [hE3] at h
      have h2 := h
      simp only [Except.error.injEq, CheckError.noMatch.injEq] at h2
      exact h2.symm
    · rw [hE3] at h
      simp at h
  · have h2s : (scoreLoop (strToLower query) cl none 0).2
        = candScoreFull (strToLower query) p.2 := by rw [hpair]
    have hif := cmdCheckToggle_some_case isCheck query desc cl hcl hnb p
      (candScoreFull (strToLower query) p.2) hpair
    by_cases hth : candScoreFull (strToLower query) p.2 < ((3 / 10 : ℚ) : WithTop ℚ)
    · have hE4 := hif.trans (if_pos hth)
      refine ⟨⟨fun _ => hE4, fun _ q2 hq2 => ?_⟩, fun errL h => ?_, fun d2 h => ?_⟩
      · exact lt_of_le_of_lt (h2s ▸ scoreLoop_le (strToLower query) cl none 0 q2 hq2) hth
      · rw [hE4] at h
        have h2 := h
        simp only [Except.error.injEq, CheckError.noMatch.injEq] at h2
        exact h2.symm
      · rw [hE4] at h
        simp at h
    · have hE4 := hif.trans (if_neg hth)
      refine ⟨⟨fun hall => absurd (hall p hp) hth, fun h => ?_⟩, fun errL h => ?_,
        fun d2 h => ?_⟩
      · rw [hE4] at h
        simp at h
      · rw [hE4] at h
        simp at h
      · rw [hE4] at h
        have h2 := h
        simp only [Except.ok.injEq] at h2
        refine ⟨p, hp, le_of_not_lt hth,
          fun q2 hq2 => h2s ▸ scoreLoop_le (strToLower query) cl none 0 q2 hq2, h2.symm⟩

/-- Witness for C5 (amended) at a one-line description whose single checkbox
line matches the query exactly and is toggled. -/
theorem cmdCheckToggle_threshold_and_candidates_witness :
    ∃ p, p ∈ ((jsSplit "- [ ] update readme" (Char.ofNat 10)).enum.filter
        (fun p2 => testFrom true p2.2))
      ∧ ((3 / 10 : ℚ) : WithTop ℚ) ≤ candScoreFull (strToLower "update readme") p.2
      ∧ (∀ q2 ∈ ((jsSplit "- [ ] update readme" (Char.ofNat 10)).enum.filter
            (fun p2 => testFrom true p2.2)),
          candScoreFull (strToLower "update readme") q2.2
            ≤ candScoreFull (strToLower "update readme") p.2)
      ∧ "- [x] update readme"
          = joinWith "\n" ((jsSplit "- [ ] update readme" (Char.ofNat 10)).set p.1
              (replaceMarker true p.2)) := by
  have hpair : scoreLoop (strToLower "update readme") [(0, "- [ ] update readme")] none 0
      = (some (0, "- [ ] update readme"), (⊤ : WithTop ℚ)) := by
    simp only [scoreLoop]
    rw [if_pos (by decide)]
  have hok : cmdCheckToggle true "update readme" "- [ ] update readme"
      = Except.ok "- [x] update readme" := by
    have hif := cmdCheckToggle_some_case true "update readme" "- [ ] update readme"
        [(0, "- [ ] update readme")] (by decide) (by decide)
        (0, "- [ ] update readme") ⊤ hpair
    rw [hif, if_neg not_top_lt]
    rfl
  exact (cmdCheckToggle_threshold_and_candidates true "update readme" "- [ ] update readme"
      _ rfl (by decide)).2.2 "- [x] update readme" hok

end LinearCli
